import Mathlib

/-!
Verification of the archivedb key/value store (github.com/millken/archivedb).

This file shallowly embeds the store's core pipeline in Lean 4 and settles the
frozen claims about it.  The embedding follows the most complete draft in the
sources: the 10-byte entry header codec (`hdr.go`), the bounds-checked
memory-map layer (`internal/mmap/mmap.go`), the segment log (`segment.Open`,
`WriteEntry`, `ReadEntry` of the `mmap.File`-based draft) and the database
façade (`Put`/`set`/`Get`/`Delete` of the radix-tree draft).  Byte strings are
`List Nat` whose elements are below 256; machine integers are `Nat` with
explicit `% 2 ^ 32` (uint32) and `% 2 ^ 16` (uint16) where the Go code can
wrap.  Separately embedded for the claims that cite them: the stub
`DB.Delete` of `db.go`, the 16-byte `EntryHeader` codec draft of `entry.go`,
`parseSegmentFilename`, and the slice-based segment-open scan of the
`mmap-go` draft.
-/

deriving instance DecidableEq for Except

/-- Error values of the store (`db.go`, `segment.go`, `internal/mmap`).
`outOfRangeAccess` marks the one place a Go draft would panic with a slice
bound violation rather than return an error. -/
inductive Err where
  | invalidOffset
  | shortWrite
  | invalidSegment
  | invalidSegmentVersion
  | segmentNotWritable
  | invalidEntryHeader
  | emptyKey
  | keyTooLarge
  | valueTooLarge
  | keyNotFound
  | keyDeleted
  | segmentNotFound
  | keyMismatch
  | lengthMismatch
  | checksumFailed
  | outOfRangeAccess
  deriving DecidableEq, Repr

/-- `MaxKeySize = math.MaxUint16` (`db.go`). -/
def MaxKeySize : Nat := 65535

/-- `SegmentSize uint32 = 1 << 30` (`segment.go`). -/
def SegmentSize : Nat := 2 ^ 30

/-- `SegmentHeaderSize = 6` — magic + version (`segment.go`). -/
def SegmentHeaderSize : Nat := 6

/-- `MaxValueSize uint32 = SegmentSize - SegmentHeaderSize` (`db.go`). -/
def MaxValueSize : Nat := SegmentSize - SegmentHeaderSize

/-- `hdrSize = 10` (`hdr.go`). -/
def hdrSize : Nat := 10

/-- A byte string: every element is an actual byte value. -/
def IsBytes (l : List Nat) : Prop := ∀ b ∈ l, b < 256

instance : DecidablePred IsBytes := fun l =>
  decidable_of_iff (∀ b ∈ l, b < 256) Iff.rfl

/-- Read `n` bytes of the backing store `d` starting at `off`. -/
def readBytes (d : Nat → Nat) (off n : Nat) : List Nat :=
  (List.range n).map fun i => d (off + i)

/-- Overwrite the backing store `d` with the bytes of `p` starting at `off`
(the effect of Go's `copy(data[off:], p)` when `p` fits). -/
def writeList (d : Nat → Nat) (off : Nat) (p : List Nat) : Nat → Nat :=
  fun i => if off ≤ i ∧ i < off + p.length then p.getD (i - off) 0 else d i

/-- CRC-32C reflected polynomial 0x82F63B78 (bit-reverse of 0x1EDC6F41). -/
def crcPoly : Nat := 0x82F63B78

/-- One bit step of the reflected CRC-32C update. -/
def crcBitStep (c : Nat) : Nat :=
  if c % 2 = 1 then (c >>> 1) ^^^ crcPoly else c >>> 1

/-- Modelled from the spec: one byte of the CRC-32C update.  The repository
calls Go's `hash/crc32.Checksum(value, CastagnoliCrcTable)`, whose table-driven
update is the standard reflected CRC: xor the byte into the low bits of the
state, then perform eight conditional shift-xor steps with 0x82F63B78. -/
def crcByteStep (c b : Nat) : Nat := crcBitStep^[8] (c ^^^ b)

/-- Modelled from the spec: `CRC32-Castagnoli` over the value bytes, as
computed by Go's `crc32.Checksum` — initial state `0xFFFFFFFF`, byte-wise
update, final xor with `0xFFFFFFFF`. -/
def crc32c (data : List Nat) : Nat :=
  (data.foldl crcByteStep 0xFFFFFFFF) ^^^ 0xFFFFFFFF

/-- The 10-byte entry header backing array `type hdr [hdrSize]byte`
(`hdr.go`).  The list always has length 10. -/
structure Hdr where
  bytes : List Nat
  deriving DecidableEq, Repr

/-- The zero header `hdr{}`. -/
def Hdr.empty : Hdr := ⟨List.replicate hdrSize 0⟩

/-- `(*h)[0]` (`hdr.go getFlag`). -/
def Hdr.getFlag (h : Hdr) : Nat := h.bytes.getD 0 0

/-- `(*h)[0] = byte(f)` (`hdr.go setFlag`). -/
def Hdr.setFlag (h : Hdr) (f : Nat) : Hdr := ⟨h.bytes.set 0 (f % 256)⟩

/-- `(*h)[1]` (`hdr.go getKeySize`). -/
def Hdr.getKeySize (h : Hdr) : Nat := h.bytes.getD 1 0

/-- `(*h)[1] = size` for a `uint8` argument (`hdr.go setKeySize`); the `% 256`
is the `uint8(...)` conversion performed at the call sites. -/
def Hdr.setKeySize (h : Hdr) (size : Nat) : Hdr := ⟨h.bytes.set 1 (size % 256)⟩

/-- `uint32((*h)[2]) | uint32((*h)[3])<<8 | uint32((*h)[4])<<16 |
uint32((*h)[5])<<24` (`hdr.go getValueSize`). -/
def Hdr.getValueSize (h : Hdr) : Nat :=
  h.bytes.getD 2 0 ||| (h.bytes.getD 3 0) <<< 8 |||
    (h.bytes.getD 4 0) <<< 16 ||| (h.bytes.getD 5 0) <<< 24

/-- `(*h)[2..5] = byte(size), byte(size>>8), byte(size>>16), byte(size>>24)`
(`hdr.go setValueSize`); `% 256` is the `byte(...)` conversion. -/
def Hdr.setValueSize (h : Hdr) (size : Nat) : Hdr :=
  ⟨(((h.bytes.set 2 (size % 256)).set 3 ((size >>> 8) % 256)).set 4
      ((size >>> 16) % 256)).set 5 ((size >>> 24) % 256)⟩

/-- `uint32((*h)[6]) | uint32((*h)[7])<<8 | uint32((*h)[8])<<16 |
uint32((*h)[9])<<24` (`hdr.go getChecksum`). -/
def Hdr.getChecksum (h : Hdr) : Nat :=
  h.bytes.getD 6 0 ||| (h.bytes.getD 7 0) <<< 8 |||
    (h.bytes.getD 8 0) <<< 16 ||| (h.bytes.getD 9 0) <<< 24

/-- `(*h)[6..9] = byte(c), byte(c>>8), byte(c>>16), byte(c>>24)`
(`hdr.go setChecksum`). -/
def Hdr.setChecksum (h : Hdr) (c : Nat) : Hdr :=
  ⟨(((h.bytes.set 6 (c % 256)).set 7 ((c >>> 8) % 256)).set 8
      ((c >>> 16) % 256)).set 9 ((c >>> 24) % 256)⟩

/-- `f.isEntryPut() || f.isEntryDelete()` — `flag ∈ {1, 2}` (`hdr.go`). -/
def flagIsEntryValid (f : Nat) : Bool := f == 1 || f == 2

/-- `uint32(hdrSize) + uint32(h.getKeySize()) + h.getValueSize()`
(`hdr.go entrySize`), with uint32 wrap-around. -/
def Hdr.entrySize (h : Hdr) : Nat :=
  (hdrSize + h.getKeySize + h.getValueSize) % 2 ^ 32

/-- An in-memory entry (`entry.go`: key, value and header). -/
structure Entry where
  key : List Nat
  value : List Nat
  hdr : Hdr
  deriving DecidableEq, Repr

/-- `createEntry(flag, key, value)` (`entry.go`): fill the header via the
`hdr.go` setters; `uint8(len(key))` and `uint32(len(value))` truncations
happen inside the setters' byte conversions. -/
def createEntry (flag : Nat) (key value : List Nat) : Entry :=
  { key := key
    value := value
    hdr := (((Hdr.empty.setFlag flag).setKeySize key.length).setValueSize
        value.length).setChecksum (crc32c value) }

/-- `e.Size()` (`entry.go`). -/
def Entry.size (e : Entry) : Nat := e.hdr.entrySize

/-- `e.verify(key)` (`entry.go`): length checks (with the `uint8`/`uint32`
conversions of the source), then key equality, then CRC comparison. -/
def Entry.verify (e : Entry) (key : List Nat) : Option Err :=
  if e.hdr.getKeySize ≠ e.key.length % 256 ∨
      e.hdr.getValueSize ≠ e.value.length % 2 ^ 32 then
    some .lengthMismatch
  else if e.key ≠ key then some .keyMismatch
  else if e.hdr.getChecksum ≠ crc32c e.value then some .checksumFailed
  else none

/-- The memory-mapped file (`internal/mmap/mmap.go File`): mapped length,
seek cursor `c`, and the mapped bytes. -/
structure MFile where
  len : Nat
  c : Nat
  data : Nat → Nat

/-- `File.ReadOff(off, length)` (`internal/mmap/mmap.go`): fails with
`ErrInvalidOffset` when `off+length` exceeds the mapped length, otherwise
returns the slice. -/
def MFile.readOff (f : MFile) (off n : Nat) : Except Err (List Nat) :=
  if off + n > f.len then .error .invalidOffset
  else .ok (readBytes f.data off n)

/-- `File.Write(p)` (`internal/mmap/mmap.go`): copy at the cursor, advance
the cursor by the amount copied; `io.ErrShortWrite` (the `Bool`) when the
cursor is at or past the end or the copy was partial. -/
def MFile.write (f : MFile) (p : List Nat) : Nat × MFile × Bool :=
  if f.c ≥ f.len then (0, f, true)
  else
    let n := min p.length (f.len - f.c)
    (n, { f with data := writeList f.data f.c (p.take n), c := f.c + n },
      decide (p.length > n))

/-- A segment (`segment.go`): id (uint16), backing mmap, and logical size. -/
structure Segment where
  id : Nat
  mfile : MFile
  size : Nat

/-- `s.CanWrite(e)`: `s.size+e.Size() <= SegmentSize` with uint32 addition. -/
def Segment.canWrite (s : Segment) (e : Entry) : Bool :=
  (s.size + e.size) % 2 ^ 32 ≤ SegmentSize

/-- `s.WriteEntry(e)` (`segment.go`, mmap.File draft): write header, key and
value at the cursor; after each write, surface the mmap error, check the
written count against the header field, and advance `size`. -/
def Segment.writeEntry (s : Segment) (e : Entry) : Option Err × Segment :=
  if ¬ s.canWrite e then (some .segmentNotWritable, s)
  else
    match s.mfile.write e.hdr.bytes with
    | (n1, f1, er1) =>
      if er1 then (some .shortWrite, { s with mfile := f1 })
      else if n1 ≠ hdrSize then (some .invalidEntryHeader, { s with mfile := f1 })
      else
        match f1.write e.key with
        | (n2, f2, er2) =>
          if er2 then
            (some .shortWrite, { s with mfile := f2, size := (s.size + n1) % 2 ^ 32 })
          else if n2 ≠ e.hdr.getKeySize then
            (some .invalidEntryHeader,
              { s with mfile := f2, size := (s.size + n1) % 2 ^ 32 })
          else
            match f2.write e.value with
            | (n3, f3, er3) =>
              if er3 then
                (some .shortWrite,
                  { s with mfile := f3, size := (s.size + n1 + n2) % 2 ^ 32 })
              else if n3 ≠ e.hdr.getValueSize then
                (some .invalidEntryHeader,
                  { s with mfile := f3, size := (s.size + n1 + n2) % 2 ^ 32 })
              else
                (none,
                  { s with mfile := f3, size := (s.size + n1 + n2 + n3) % 2 ^ 32 })

/-- `s.ReadEntry(off)` (`segment.go`, mmap.File draft). -/
def Segment.readEntry (s : Segment) (off : Nat) : Except Err Entry :=
  if off ≥ s.size then .error .invalidOffset
  else
    match s.mfile.readOff off hdrSize with
    | .error e => .error e
    | .ok buf =>
      let h : Hdr := ⟨buf⟩
      if ¬ flagIsEntryValid h.getFlag then .error .invalidOffset
      else
        let start := (off + hdrSize) % 2 ^ 32
        match s.mfile.readOff start h.getKeySize with
        | .error e => .error e
        | .ok key =>
          let start2 := (start + h.getKeySize) % 2 ^ 32
          match s.mfile.readOff start2 h.getValueSize with
          | .error e => .error e
          | .ok value => .ok ⟨key, value, h⟩

/-- The bytes `"ArSeG" + version 1` that `createSegment` writes at offset 0. -/
def segMagicBytes : List Nat := [65, 114, 83, 101, 71, 1]

/-- Result of the recovery scan loop in `segment.Open`: final `size`, an
error, an out-of-range slice access (Go panic), or fuel exhaustion (the Go
loop diverges or the fuel bound was insufficient). -/
inductive ScanRes where
  | ok (size : Nat)
  | err (e : Err)
  | oor
  | fuelOut
  deriving DecidableEq, Repr

/-- The scan loop of `segment.Open` (mmap.File draft): from `size`, while
`size < len`, read a 10-byte header via `ReadOff` (which errors when fewer
than 10 bytes remain), stop at an invalid flag, else advance by the entry
size (uint32 addition). -/
def scanLoop (len : Nat) (d : Nat → Nat) : Nat → Nat → ScanRes
  | 0, _ => .fuelOut
  | fuel + 1, size =>
    if size ≥ len then .ok size
    else if size + hdrSize > len then .err .invalidOffset
    else
      let h : Hdr := ⟨readBytes d size hdrSize⟩
      if ¬ flagIsEntryValid h.getFlag then .ok size
      else scanLoop len d fuel ((size + h.entrySize) % 2 ^ 32)

/-- `segment.Open` (mmap.File draft): read the 6-byte meta via `ReadOff`,
verify magic and version, run the scan from offset 6, then seek the cursor to
the recovered size. -/
def segOpen (id : Nat) (f : MFile) : Except Err Segment :=
  if SegmentHeaderSize > f.len then .error .invalidOffset
  else
    let b := readBytes f.data 0 SegmentHeaderSize
    if b.take 5 ≠ segMagicBytes.take 5 then .error .invalidSegment
    else if b.getD 5 0 ≠ 1 then .error .invalidSegmentVersion
    else
      match scanLoop f.len f.data f.len SegmentHeaderSize with
      | .ok size => .ok ⟨id, { f with c := size }, size⟩
      | .err e => .error e
      | _ => .error .invalidSegment

/-- The mapped bytes of a freshly created segment file: magic+version header,
then zeros up to `SegmentSize` (`createSegment` writes the header and
truncates the file to `SegmentSize`). -/
def freshData : Nat → Nat := fun i => segMagicBytes.getD i 0

/-- The segment produced by `createSegment(id, path)` followed by `Open`:
fresh file contents, recovered size 6, cursor 6.  `segOpen_fresh` proves this
is what `segOpen` yields on the fresh file. -/
def freshSegment (id : Nat) : Segment :=
  ⟨id % 2 ^ 16, { len := SegmentSize, c := SegmentHeaderSize, data := freshData },
    SegmentHeaderSize⟩

/-- An index record `index{seg, off}` of the radix-tree DB draft: segment id
and entry offset. -/
structure IndexRec where
  seg : Nat
  off : Nat
  deriving DecidableEq, Repr

/-- The database (radix-tree draft): ordered segment list, the key-indexed
tree `art.Tree[*index]` modelled as a lookup function, and the fsync option
(whose `Flush` has no effect on the byte model). -/
structure DB where
  segments : List Segment
  index : List Nat → Option IndexRec
  fsync : Bool

/-- `validateKey` (`db.go`): empty key and oversized key checks. -/
def validateKey (key : List Nat) : Option Err :=
  if key.length = 0 then some .emptyKey
  else if key.length > MaxKeySize then some .keyTooLarge
  else none

/-- `db.activeSegment()`: the last segment, if any. -/
def DB.activeSegment (db : DB) : Option Segment := db.segments.getLast?

/-- `db.createSegment()` (radix-tree draft): next id is `last.ID() + 1` in
uint16 arithmetic (0 when no segment exists); append a freshly created and
opened segment. -/
def DB.createSegment (db : DB) : DB × Segment :=
  let id := match db.segments.getLast? with
    | none => 0
    | some s => (s.id + 1) % 2 ^ 16
  let s := freshSegment id
  ({ db with segments := db.segments ++ [s] }, s)

/-- `db.set(key, value, flag)` (radix-tree draft): build the entry, roll over
to a new segment when the active one cannot fit it, write, then point the
index at `(segment id, size - entry size)`. -/
def DB.set (db0 : DB) (key value : List Nat) (flag : Nat) :
    Except Err Unit × DB :=
  let e := createEntry flag key value
  let needNew : Bool := match db0.activeSegment with
    | none => true
    | some s => ! s.canWrite e
  let db := if needNew then (db0.createSegment).1 else db0
  let pos := db.segments.length - 1
  match (db.segments.getD pos (freshSegment 0)).writeEntry e with
  | (some er, s') => (.error er, { db with segments := db.segments.set pos s' })
  | (none, s') =>
    let off := s'.size - e.size
    (.ok (),
      { db with
        segments := db.segments.set pos s'
        index := fun k => if k = key then some ⟨s'.id, off⟩ else db.index k })

/-- `db.Put(key, value)` (radix-tree draft): validation, then `set` with the
put flag 1. -/
def DB.put (db : DB) (key value : List Nat) : Except Err Unit × DB :=
  match validateKey key with
  | some er => (.error er, db)
  | none =>
    if value.length > MaxValueSize then (.error .valueTooLarge, db)
    else db.set key value 1

/-- `db.Delete(key)` (radix-tree draft): validation, then `set` with a nil
value and the delete flag 2 — the tombstone append. -/
def DB.delete (db : DB) (key : List Nat) : Except Err Unit × DB :=
  match validateKey key with
  | some er => (.error er, db)
  | none => db.set key [] 2

/-- `db.Get(key)` (radix-tree draft): index lookup, positional segment
access (`db.segments[idx.seg]` — a Go panic when out of range, surfaced as
`outOfRangeAccess`), entry read, verification, and the value.  No branch
inspects the entry flag: tombstones are returned like ordinary entries. -/
def DB.get (db : DB) (key : List Nat) : Except Err (List Nat) :=
  match validateKey key with
  | some er => .error er
  | none =>
    match db.index key with
    | none => .error .keyNotFound
    | some it =>
      match db.segments.get? it.seg with
      | none => .error .outOfRangeAccess
      | some s =>
        match s.readEntry it.off with
        | .error e => .error e
        | .ok e =>
          match e.verify key with
          | some er => .error er
          | none => .ok e.value

/-- The database produced by `Open` on an empty directory: one fresh segment
`0000`, an empty index, fsync off. -/
def db0 : DB := ⟨[freshSegment 0], fun _ => none, false⟩

/-- One step of a put sequence: perform the put, thread the state, and
accumulate whether every put so far returned nil. -/
def putStep (acc : DB × Bool) (op : List Nat × List Nat) : DB × Bool :=
  match acc.1.put op.1 op.2 with
  | (r, db') => (db', acc.2 && decide (r = .ok ()))

/-- Apply a list of `Put` operations in order, recording whether every one of
them returned nil (`true` iff all puts succeeded). -/
def applyPuts (ops : List (List Nat × List Nat)) (db : DB) : DB × Bool :=
  ops.foldl putStep (db, true)

/-- `db.Delete(key)` of `src/db.go`: validate the key and return nil — the
draft never appends a tombstone nor touches the index or the segments. -/
def DBGo.delete (db : DB) (key : List Nat) : Except Err Unit × DB :=
  match validateKey key with
  | some er => (.error er, db)
  | none => (.ok (), db)

/-- The `EntryHeader` struct of the `entry.go` draft with
`EntryHeaderSize = 16`. -/
structure EntryHeader where
  valueSize : Nat
  checksum : Nat
  keySize : Nat
  flag : Nat
  deriving DecidableEq, Repr

/-- `EntryHeaderSize = 16` (`entry.go` draft). -/
def EntryHeaderSize : Nat := 16

/-- `EntryHeader.Encode` (`entry.go` draft): a `[EntryHeaderSize]byte` buffer
whose first 10 bytes are `[flag][keySize][valueSize LE 4][checksum LE 4]` and
whose last 6 bytes stay zero. -/
def EntryHeader.encode (e : EntryHeader) : List Nat :=
  [e.flag % 256, e.keySize % 256,
    e.valueSize % 256, (e.valueSize >>> 8) % 256,
    (e.valueSize >>> 16) % 256, (e.valueSize >>> 24) % 256,
    e.checksum % 256, (e.checksum >>> 8) % 256,
    (e.checksum >>> 16) % 256, (e.checksum >>> 24) % 256,
    0, 0, 0, 0, 0, 0]

/-- `readEntryHeader(b)` (`entry.go` draft): `ErrInvalidEntryHeader` when
`len(b) < EntryHeaderSize`, else decode the little-endian fields. -/
def readEntryHeader (b : List Nat) : Except Err EntryHeader :=
  if b.length < EntryHeaderSize then .error .invalidEntryHeader
  else
    .ok
      { flag := b.getD 0 0
        keySize := b.getD 1 0
        valueSize := b.getD 2 0 ||| (b.getD 3 0) <<< 8 |||
          (b.getD 4 0) <<< 16 ||| (b.getD 5 0) <<< 24
        checksum := b.getD 6 0 ||| (b.getD 7 0) <<< 8 |||
          (b.getD 8 0) <<< 16 ||| (b.getD 9 0) <<< 24 }

/-- Hexadecimal digit value of a character, as accepted by Go's
`strconv.ParseUint` with base 16 (digits and letters of either case below
the base). -/
def hexDigitVal (c : Char) : Option Nat :=
  if '0' ≤ c ∧ c ≤ '9' then some (c.toNat - '0'.toNat)
  else if 'a' ≤ c ∧ c ≤ 'f' then some (c.toNat - 'a'.toNat + 10)
  else if 'A' ≤ c ∧ c ≤ 'F' then some (c.toNat - 'A'.toNat + 10)
  else none

/-- One accumulation step of `strconv.ParseUint(s, 16, 32)`: reject non-hex
characters and any intermediate value that no longer fits in 32 bits (the
cutoff and max-value checks of the Go source combine to exactly this). -/
def parseUintStep (acc : Option Nat) (c : Char) : Option Nat :=
  acc.bind fun n =>
    match hexDigitVal c with
    | none => none
    | some d => if n * 16 + d ≥ 2 ^ 32 then none else some (n * 16 + d)

/-- `strconv.ParseUint(s, 16, 32)`: empty strings and strings with a non-hex
character fail; so do values of 32 bits or more. -/
def parseUint16_32 (s : List Char) : Option Nat :=
  if s = [] then none else s.foldl parseUintStep (some 0)

/-- `parseSegmentFilename` (`segment.go`): `ParseUint(filename, 16, 32)`
followed by the `uint16(i)` truncation. -/
def parseSegmentFilename (s : List Char) : Option Nat :=
  (parseUint16_32 s).map (· % 2 ^ 16)

/-- The selection performed by `db.openSegments`: a directory entry is opened
as a segment exactly when `parseSegmentFilename` succeeds on its name; all
other names are skipped silently (`continue`). -/
def openSegmentsSelect (names : List (List Char)) : List (List Char) :=
  names.filter fun n => (parseSegmentFilename n).isSome

/-- The spec's wording for C9/§6: a name consisting of exactly four lowercase
hexadecimal digits. -/
def specFourDigitHexName (s : List Char) : Prop :=
  s.length = 4 ∧ ∀ c ∈ s, ('0' ≤ c ∧ c ≤ '9') ∨ ('a' ≤ c ∧ c ≤ 'f')

instance : DecidablePred specFourDigitHexName := fun s => by
  unfold specFourDigitHexName; infer_instance

/-- `EntrySize` of the `entry.go` draft paired with the `mmap-go` segment:
`EntryHeaderSize + keySize + valueSize` in uint32 arithmetic. -/
def EntryHeader.entrySize16 (h : EntryHeader) : Nat :=
  (EntryHeaderSize + h.keySize + h.valueSize) % 2 ^ 32

/-- `isValidEntryFlag` (`entry.go` draft). -/
def isValidEntryFlag (f : Nat) : Bool := f == 1 || f == 2

/-- The scan loop of the `mmap-go` draft of `segment.Open` (part of the
sources): while `size < len`, evaluate `readEntryHeader(data[size :
size+EntryHeaderSize])`.  The Go slice expression panics (`.oor`) whenever
`size + EntryHeaderSize` exceeds the mapped length; inside the bound,
`readEntryHeader` always succeeds on the 16-byte slice. -/
def scanLoop005 (len : Nat) (d : Nat → Nat) : Nat → Nat → ScanRes
  | 0, _ => .fuelOut
  | fuel + 1, size =>
    if size ≥ len then .ok size
    else if size + EntryHeaderSize > len then .oor
    else
      match readEntryHeader (readBytes d size EntryHeaderSize) with
      | .error _ => .err .invalidEntryHeader
      | .ok h =>
        if ¬ isValidEntryFlag h.flag then .ok size
        else scanLoop005 len d fuel ((size + h.entrySize16) % 2 ^ 32)

/-- `segment.Open` of the `mmap-go` draft, up to and including its recovery
scan: decode the segment header from the mapped bytes (requiring at least 6
bytes, magic `ArSeG`, version 1), then run the slice-based scan from
offset 6. -/
def segOpen005 (len : Nat) (d : Nat → Nat) : ScanRes :=
  if len < SegmentHeaderSize then .err .invalidSegment
  else if readBytes d 0 5 ≠ segMagicBytes.take 5 then .err .invalidSegment
  else if d 5 ≠ 1 then .err .invalidSegmentVersion
  else scanLoop005 len d len SegmentHeaderSize

/-- Well-formedness of the segment stored at position `i` of the database's
segment list: its id is `i` in uint16 arithmetic, its mapping is a full
`SegmentSize` file, the write cursor sits at the recovered size, and the size
stays between the 6-byte segment header and the capacity. -/
def SegOK (i : Nat) (s : Segment) : Prop :=
  s.id = i % 2 ^ 16 ∧ s.mfile.len = SegmentSize ∧ s.mfile.c = s.size ∧
    SegmentHeaderSize ≤ s.size ∧ s.size ≤ SegmentSize

/-- Database invariant maintained by `Open` and every successful `Put`. -/
def DBInv (db : DB) : Prop :=
  db.segments ≠ [] ∧ ∀ i (h : i < db.segments.length), SegOK i (db.segments.get ⟨i, h⟩)

/-- Flip bit `j` of the byte at offset `p` of the mapped file of the segment
at position `si` — the on-disk corruption of a single bit. -/
def corruptBit (db : DB) (si p j : Nat) : DB :=
  match db.segments.get? si with
  | none => db
  | some s =>
    { db with
      segments := db.segments.set si
        { s with
          mfile :=
            { s.mfile with
              data := fun i =>
                if i = p then s.mfile.data i ^^^ 2 ^ j else s.mfile.data i } } }

/-- A value whose entry (10-byte header + 1-byte key + value) fills a fresh
segment exactly: `6 + 10 + 1 + (2^30 - 17) = 2^30`. -/
def wrapValue : List Nat := List.replicate (2 ^ 30 - 17) 37

/-- `n` consecutive puts of `wrapValue` under the key `[1]`; each one fills
one whole segment, so 65536 of them exhaust the uint16 segment-id space. -/
def wrapOps (n : Nat) : List (List Nat × List Nat) :=
  List.replicate n ([1], wrapValue)

/-- The mapped bytes of a segment completely filled by one `wrapValue`
entry. -/
def fullSegData : Nat → Nat :=
  writeList freshData SegmentHeaderSize
    ((createEntry 1 [1] wrapValue).hdr.bytes ++ [1] ++ wrapValue)

/-- The segment produced by the `i`-th wrap-around put: id `i % 2^16`,
completely full. -/
def fullSeg (i : Nat) : Segment :=
  ⟨i % 2 ^ 16, ⟨SegmentSize, SegmentSize, fullSegData⟩, SegmentSize⟩

/-- The database state after `m ≥ 1` wrap-around puts. -/
def wrapDB (m : Nat) : DB :=
  ⟨(List.range m).map fullSeg,
    fun kk => if kk = [1] then some ⟨(m - 1) % 2 ^ 16, SegmentHeaderSize⟩ else none,
    false⟩

/-- The segment written by `Put("foo", "bar")` after the 65536 wrap-around
puts: appended at position 65536, but with id `(65535 + 1) % 2^16 = 0` — the
same id as the first full segment. -/
def fooSeg : Segment :=
  ⟨0,
    { len := SegmentSize
      c := 22
      data := writeList freshData SegmentHeaderSize
        ((createEntry 1 [102, 111, 111] [98, 97, 114]).hdr.bytes ++
          [102, 111, 111] ++ [98, 97, 114]) },
    22⟩

/-- The database state after the 65536 wrap-around puts followed by
`Put("foo", "bar")`: the index entry for `"foo"` records segment id 0, which
`Get` resolves to position 0 — the first full segment — instead of the
just-written segment at position 65536. -/
def badDB : DB :=
  ⟨(List.range (2 ^ 16)).map fullSeg ++ [fooSeg],
    fun kk => if kk = [102, 111, 111] then some ⟨0, SegmentHeaderSize⟩
      else if kk = [1] then some ⟨(2 ^ 16 - 1) % 2 ^ 16, SegmentHeaderSize⟩
      else none,
    false⟩

/-- The chain of entries traversed by the recovery scan of `segment.Open`
(mmap.File draft): from a start offset, step over entries whose header flag
is valid, and stop either when the offset reaches the mapped length or at the
first invalid flag with a full header available.  `ScanChain len d a b` holds
exactly when the scan started at `a` ends successfully with recovered size
`b`. -/
inductive ScanChain (len : Nat) (d : Nat → Nat) : Nat → Nat → Prop where
  | stop_space (size : Nat) (h : size ≥ len) : ScanChain len d size size
  | stop_flag (size : Nat) (h1 : size < len) (h2 : size + hdrSize ≤ len)
      (h3 : ¬ flagIsEntryValid (Hdr.getFlag ⟨readBytes d size hdrSize⟩)) :
      ScanChain len d size size
  | step (size size' : Nat) (h1 : size < len) (h2 : size + hdrSize ≤ len)
      (h3 : flagIsEntryValid (Hdr.getFlag ⟨readBytes d size hdrSize⟩))
      (h4 : ScanChain len d
        ((size + Hdr.entrySize ⟨readBytes d size hdrSize⟩) % 2 ^ 32) size') :
      ScanChain len d size size'

/-- A value of exactly `MaxValueSize` bytes: it passes `Put`'s value-size
check, yet its entry (10-byte header + 1-byte key + value) exceeds
`SegmentSize`, so no segment — not even a fresh one — can hold it. -/
def capValue : List Nat := List.replicate (2 ^ 30 - 6) 37

/-- The segment state after `Put(k, v)` on a freshly opened database: the
entry written at offset 6 of segment 0. -/
def putSeg (k v : List Nat) : Segment :=
  ⟨0 % 2 ^ 16,
    { len := SegmentSize
      c := SegmentHeaderSize + hdrSize + k.length + v.length
      data := writeList freshData SegmentHeaderSize
        ((createEntry 1 k v).hdr.bytes ++ k ++ v) },
    SegmentHeaderSize + hdrSize + k.length + v.length⟩

/-- The database state after `Put(k, v)` on a freshly opened database. -/
def putDB (k v : List Nat) : DB :=
  ⟨[putSeg k v],
    fun kk => if kk = k then some ⟨0 % 2 ^ 16, SegmentHeaderSize⟩ else none,
    false⟩

/-- The fresh segment with the given id after the entry `(k, v)` was written
into it during a rollover. -/
def rollSeg (id : Nat) (k v : List Nat) : Segment :=
  ⟨id % 2 ^ 16,
    { len := SegmentSize
      c := SegmentHeaderSize + hdrSize + k.length + v.length
      data := writeList freshData SegmentHeaderSize
        ((createEntry 1 k v).hdr.bytes ++ k ++ v) },
    SegmentHeaderSize + hdrSize + k.length + v.length⟩

-- quick sanity examples (evaluation / kernel-reduction checks)
example : crc32c [] = 0 := by decide

/-! ### Byte-store utilities -/

theorem readBytes_length (d : Nat → Nat) (off n : Nat) :
    (readBytes d off n).length = n := by
  simp [readBytes]

theorem readBytes_getD (d : Nat → Nat) (off n i : Nat) (h : i < n) :
    (readBytes d off n).getD i 0 = d (off + i) := by
  simp [readBytes, List.getD_eq_getElem?_getD, List.getElem?_map,
    List.getElem?_range h]

theorem take_eq_range_map_getD (p : List Nat) (n : Nat) (h : n ≤ p.length) :
    (List.range n).map (fun i => p.getD i 0) = p.take n := by
  apply List.ext_getElem
  · simp [h]
  · intro i h1 h2
    simp only [List.getElem_map, List.getElem_range, List.getElem_take]
    simp at h1
    rw [List.getD_eq_getElem _ _ (by omega)]

theorem range_map_getD_self (p : List Nat) :
    (List.range p.length).map (fun i => p.getD i 0) = p := by
  rw [take_eq_range_map_getD p p.length le_rfl, List.take_length]

theorem readBytes_writeList_sub (d : Nat → Nat) (off : Nat) (p : List Nat)
    (a n : Nat) (h1 : off ≤ a) (h2 : a + n ≤ off + p.length) :
    readBytes (writeList d off p) a n =
      (List.range n).map (fun i => p.getD (a - off + i) 0) := by
  unfold readBytes writeList
  apply List.map_congr_left
  intro i hi
  simp only [List.mem_range] at hi
  rw [if_pos (by omega)]
  congr 1
  omega

theorem readBytes_writeList_front (d : Nat → Nat) (off : Nat) (p : List Nat)
    (n : Nat) (h : n ≤ p.length) :
    readBytes (writeList d off p) off n = p.take n := by
  rw [readBytes_writeList_sub d off p off n le_rfl (by omega)]
  simp only [Nat.sub_self, Nat.zero_add]
  exact take_eq_range_map_getD p n h

theorem readBytes_writeList_left (d : Nat → Nat) (off : Nat) (p : List Nat)
    (a n : Nat) (h : a + n ≤ off) :
    readBytes (writeList d off p) a n = readBytes d a n := by
  unfold readBytes writeList
  apply List.map_congr_left
  intro i hi
  simp only [List.mem_range] at hi
  rw [if_neg (by omega)]

theorem getD_append_left (p q : List Nat) (n : Nat) (h : n < p.length) :
    (p ++ q).getD n 0 = p.getD n 0 := by
  simp only [List.getD_eq_getElem?_getD]
  rw [List.getElem?_append, if_pos h]

theorem getD_append_right (p q : List Nat) (n : Nat) (h : p.length ≤ n) :
    (p ++ q).getD n 0 = q.getD (n - p.length) 0 := by
  simp only [List.getD_eq_getElem?_getD]
  rw [List.getElem?_append, if_neg (by omega)]

theorem writeList_append (d : Nat → Nat) (off : Nat) (p q : List Nat) :
    writeList (writeList d off p) (off + p.length) q = writeList d off (p ++ q) := by
  funext i
  unfold writeList
  by_cases hA : off + p.length ≤ i ∧ i < off + p.length + q.length
  · rw [if_pos hA, if_pos (by constructor <;> [omega; (simp only [List.length_append]; omega)])]
    rw [getD_append_right p q _ (by omega)]
    congr 1
    omega
  · rw [if_neg hA]
    by_cases hB : off ≤ i ∧ i < off + p.length
    · rw [if_pos hB, if_pos (by constructor <;> [omega; (simp only [List.length_append]; omega)])]
      rw [getD_append_left p q _ (by omega)]
    · rw [if_neg hB, if_neg (by simp only [List.length_append]; omega)]

/-! ### Little-endian recomposition -/

theorem le4_recompose (x : Nat) (hx : x < 2 ^ 32) :
    (x % 256) ||| ((x >>> 8) % 256) <<< 8 ||| ((x >>> 16) % 256) <<< 16 |||
      ((x >>> 24) % 256) <<< 24 = x := by
  apply Nat.eq_of_testBit_eq
  intro i
  have h256 : (256 : Nat) = 2 ^ 8 := by norm_num
  simp only [Nat.testBit_or, Nat.testBit_shiftLeft, h256, Nat.testBit_mod_two_pow,
    Nat.testBit_shiftRight]
  rcases Nat.lt_or_ge i 32 with hi | hi
  · rcases Nat.lt_or_ge i 8 with h8 | h8
    · have e1 : (8 ≤ i) = False := by simp; omega
      have e2 : (16 ≤ i) = False := by simp; omega
      have e3 : (24 ≤ i) = False := by simp; omega
      simp [e1, e2, e3, h8]
    · rcases Nat.lt_or_ge i 16 with h16 | h16
      · have e1 : 8 + (i - 8) = i := by omega
        simp only [decide_eq_true (h8 : 8 ≤ i), Bool.true_and, e1]
        have e2 : (16 ≤ i) = False := by simp; omega
        have e3 : (24 ≤ i) = False := by simp; omega
        have e4 : (i < 8) = False := by simp; omega
        simp [e2, e3, e4, show i - 8 < 8 by omega]
      · rcases Nat.lt_or_ge i 24 with h24 | h24
        · have e1 : 16 + (i - 16) = i := by omega
          simp only [decide_eq_true (show 16 ≤ i by omega), Bool.true_and, e1]
          have e2 : (24 ≤ i) = False := by simp; omega
          have e4 : (i < 8) = False := by simp; omega
          have e5 : (i - 8 < 8) = False := by simp; omega
          simp [e2, e4, e5, show i - 16 < 8 by omega]
        · have e1 : 24 + (i - 24) = i := by omega
          simp only [decide_eq_true (show 24 ≤ i by omega), Bool.true_and, e1]
          have e4 : (i < 8) = False := by simp; omega
          have e5 : (i - 8 < 8) = False := by simp; omega
          have e6 : (i - 16 < 8) = False := by simp; omega
          simp [e4, e5, e6, show i - 24 < 8 by omega]
  · have hxf : x.testBit i = false :=
      Nat.testBit_lt_two_pow (lt_of_lt_of_le hx (Nat.pow_le_pow_right (by norm_num) hi))
    have e4 : (i < 8) = False := by simp; omega
    have e5 : (i - 8 < 8) = False := by simp; omega
    have e6 : (i - 16 < 8) = False := by simp; omega
    have e7 : (i - 24 < 8) = False := by simp; omega
    simp [hxf, e4, e5, e6, e7]

/-! ### CRC-32C: every single-bit corruption changes the checksum -/

theorem nat_xor_left_comm (a b c : Nat) : a ^^^ (b ^^^ c) = b ^^^ (a ^^^ c) := by
  rw [← Nat.xor_assoc, Nat.xor_comm a b, Nat.xor_assoc]

theorem nat_xor_cancel (a b : Nat) : a ^^^ (a ^^^ b) = b := by
  rw [← Nat.xor_assoc, Nat.xor_self, Nat.zero_xor]

theorem crcBitStep_linear (x d : Nat) :
    crcBitStep (x ^^^ d) = crcBitStep x ^^^ crcBitStep d := by
  unfold crcBitStep
  have hx2 := Nat.mod_two_eq_zero_or_one x
  have hd2 := Nat.mod_two_eq_zero_or_one d
  have hxor : (x ^^^ d) % 2 = (x + d) % 2 := Nat.xor_mod_two_eq
  have hdiv : (x ^^^ d) >>> 1 = x >>> 1 ^^^ d >>> 1 := by
    simp only [Nat.shiftRight_one]
    exact Nat.xor_div_two
  have hpar : (x ^^^ d) % 2 = (x % 2 + d % 2) % 2 := by omega
  rcases hx2 with hx | hx <;> rcases hd2 with hd | hd <;>
    simp [hx, hd, hpar, hdiv, Nat.xor_assoc, Nat.xor_comm, nat_xor_left_comm,
      nat_xor_cancel]

theorem crcBitStep_iter_linear (n : Nat) (x d : Nat) :
    crcBitStep^[n] (x ^^^ d) = crcBitStep^[n] x ^^^ crcBitStep^[n] d := by
  induction n generalizing x d with
  | zero => simp
  | succ m ih =>
    rw [Function.iterate_succ_apply, Function.iterate_succ_apply,
      Function.iterate_succ_apply, crcBitStep_linear, ih]

theorem crcByteStep_state_linear (c d b : Nat) :
    crcByteStep (c ^^^ d) b = crcByteStep c b ^^^ crcBitStep^[8] d := by
  unfold crcByteStep
  rw [show c ^^^ d ^^^ b = (c ^^^ b) ^^^ d by
    rw [Nat.xor_assoc, Nat.xor_assoc, Nat.xor_comm d b]]
  exact crcBitStep_iter_linear 8 (c ^^^ b) d

theorem foldl_crc_state_xor (l : List Nat) (c d : Nat) :
    l.foldl crcByteStep (c ^^^ d) =
      l.foldl crcByteStep c ^^^ crcBitStep^[8 * l.length] d := by
  induction l generalizing c d with
  | nil => simp
  | cons b t ih =>
    simp only [List.foldl_cons, List.length_cons]
    rw [crcByteStep_state_linear, ih, ← Function.iterate_add_apply]
    have h8 : 8 * t.length + 8 = 8 * (t.length + 1) := by ring
    rw [h8]

theorem crcBitStep_lt (d : Nat) (h : d < 2 ^ 32) : crcBitStep d < 2 ^ 32 := by
  unfold crcBitStep
  have h1 : d >>> 1 < 2 ^ 32 := by
    simp only [Nat.shiftRight_one]
    omega
  by_cases hd : d % 2 = 1
  · rw [if_pos hd]
    exact Nat.xor_lt_two_pow h1 (by norm_num [crcPoly])
  · rw [if_neg hd]
    exact h1

theorem crcBitStep_ne_zero (d : Nat) (h0 : d ≠ 0) (h : d < 2 ^ 32) :
    crcBitStep d ≠ 0 := by
  unfold crcBitStep
  have hd2 := Nat.mod_two_eq_zero_or_one d
  rcases hd2 with hd | hd
  · rw [if_neg (by omega)]
    simp only [Nat.shiftRight_one]
    omega
  · rw [if_pos hd]
    intro hc
    have heq : d >>> 1 = crcPoly := Nat.xor_eq_zero.mp hc
    have hdd : d / 2 = 0x82F63B78 := by
      rw [← Nat.shiftRight_one, heq]
      rfl
    omega

theorem crcBitStep_iter_ne_zero (n d : Nat) (h0 : d ≠ 0) (h : d < 2 ^ 32) :
    crcBitStep^[n] d ≠ 0 ∧ crcBitStep^[n] d < 2 ^ 32 := by
  induction n generalizing d with
  | zero => simpa using ⟨h0, h⟩
  | succ m ih =>
    rw [Function.iterate_succ_apply]
    exact ih _ (crcBitStep_ne_zero d h0 h) (crcBitStep_lt d h)

theorem crc32c_set_xor (v : List Nat) (i x : Nat) (hi : i < v.length) :
    crc32c (v.set i (v.getD i 0 ^^^ x)) =
      crc32c v ^^^ crcBitStep^[8 * (v.length - i)] x := by
  have hgd : v.getD i 0 = v.get ⟨i, hi⟩ := by
    rw [List.getD_eq_getElem v 0 hi, List.get_eq_getElem]
  have hsplit : v = v.take i ++ v.getD i 0 :: v.drop (i + 1) := by
    conv_lhs => rw [← List.take_append_drop i v]
    congr 1
    rw [hgd, List.get_eq_getElem]
    exact (List.getElem_cons_drop v i hi).symm
  have hset : v.set i (v.getD i 0 ^^^ x) =
      v.take i ++ (v.getD i 0 ^^^ x) :: v.drop (i + 1) :=
    List.set_eq_take_cons_drop _ hi
  unfold crc32c
  set c0 : Nat := List.foldl crcByteStep 0xFFFFFFFF (v.take i) with hc0
  have hb : crcByteStep c0 (v.getD i 0 ^^^ x) =
      crcByteStep c0 (v.getD i 0) ^^^ crcBitStep^[8] x := by
    unfold crcByteStep
    rw [← Nat.xor_assoc]
    exact crcBitStep_iter_linear 8 (c0 ^^^ v.getD i 0) x
  have hfold1 : List.foldl crcByteStep 0xFFFFFFFF v =
      List.foldl crcByteStep (crcByteStep c0 (v.getD i 0)) (v.drop (i + 1)) := by
    conv_lhs => rw [hsplit]
    simp only [List.foldl_append, List.foldl_cons, hc0]
  have hfold2 : List.foldl crcByteStep 0xFFFFFFFF (v.set i (v.getD i 0 ^^^ x)) =
      List.foldl crcByteStep (crcByteStep c0 (v.getD i 0)) (v.drop (i + 1)) ^^^
        crcBitStep^[8 * (v.length - i)] x := by
    rw [hset]
    simp only [List.foldl_append, List.foldl_cons, hc0]
    rw [← hc0, hb, foldl_crc_state_xor, ← Function.iterate_add_apply]
    congr 2
    simp only [List.length_drop]
    omega
  rw [hfold1, hfold2]
  generalize List.foldl crcByteStep (crcByteStep c0 (v.getD i 0)) (v.drop (i + 1)) = z
  rw [Nat.xor_assoc, Nat.xor_assoc]
  congr 1
  exact Nat.xor_comm _ _

theorem crcBitStep_iter_lt (n d : Nat) (h : d < 2 ^ 32) :
    crcBitStep^[n] d < 2 ^ 32 := by
  induction n generalizing d with
  | zero => simpa using h
  | succ m ih =>
    rw [Function.iterate_succ_apply]
    exact ih _ (crcBitStep_lt d h)

theorem foldl_crc_lt (l : List Nat) : ∀ c : Nat, IsBytes l → c < 2 ^ 32 →
    l.foldl crcByteStep c < 2 ^ 32 := by
  induction l with
  | nil =>
    intro c _ hc
    simpa using hc
  | cons b t ih =>
    intro c hl hc
    simp only [List.foldl_cons]
    have hb : b < 256 := hl b (by simp)
    apply ih _ (fun x hx => hl x (by simp [hx]))
    unfold crcByteStep
    exact crcBitStep_iter_lt 8 _ (Nat.xor_lt_two_pow hc (by omega))

theorem crc32c_lt (v : List Nat) (hv : IsBytes v) : crc32c v < 2 ^ 32 := by
  unfold crc32c
  exact Nat.xor_lt_two_pow (foldl_crc_lt v _ hv (by norm_num)) (by norm_num)

/-- Flipping any single bit of any byte of `v` changes its CRC-32C. -/
theorem crc32c_flip_ne (v : List Nat) (i j : Nat) (hi : i < v.length)
    (hj : j < 32) :
    crc32c (v.set i (v.getD i 0 ^^^ 2 ^ j)) ≠ crc32c v := by
  rw [crc32c_set_xor v i (2 ^ j) hi]
  have h2j : (2 : Nat) ^ j < 2 ^ 32 := Nat.pow_lt_pow_right (by norm_num) hj
  have hne : crcBitStep^[8 * (v.length - i)] (2 ^ j) ≠ 0 :=
    (crcBitStep_iter_ne_zero (8 * (v.length - i)) (2 ^ j) (by positivity) h2j).1
  intro hc
  apply hne
  have h2 : crcBitStep^[8 * (v.length - i)] (2 ^ j) =
      crc32c v ^^^ (crc32c v ^^^ crcBitStep^[8 * (v.length - i)] (2 ^ j)) :=
    (nat_xor_cancel _ _).symm
  rw [show crc32c v ^^^ crcBitStep^[8 * (v.length - i)] (2 ^ j) = crc32c v from hc,
    Nat.xor_self] at h2
  exact h2
example :
    scanLoop SegmentSize freshData SegmentSize SegmentHeaderSize = .ok 6 := by decide
example :
    (segOpen 0 { len := SegmentSize, c := 0, data := freshData }).map
      (fun s => (s.id, s.size, s.mfile.c, s.mfile.len)) = .ok (0, 6, 6, 2 ^ 30) := by
  decide

example :
    ((db0.put [102, 111, 111] [98, 97, 114]).2.get [102, 111, 111]) =
      .ok [98, 97, 114] := by decide

example :
    (((db0.put [102, 111, 111] [98, 97, 114]).2.delete [102, 111, 111]).2.get
      [102, 111, 111]) = .ok [] := by decide

example : parseSegmentFilename ['f', 'f'] = some 255 := by decide

/-! ### Header and entry computation lemmas -/

theorem createEntry_hdr_bytes (fl : Nat) (k v : List Nat) :
    (createEntry fl k v).hdr.bytes =
      [fl % 256, k.length % 256,
        v.length % 256, (v.length >>> 8) % 256, (v.length >>> 16) % 256,
        (v.length >>> 24) % 256,
        crc32c v % 256, (crc32c v >>> 8) % 256, (crc32c v >>> 16) % 256,
        (crc32c v >>> 24) % 256] := rfl

theorem createEntry_hdr_bytes_length (fl : Nat) (k v : List Nat) :
    (createEntry fl k v).hdr.bytes.length = hdrSize := rfl

theorem createEntry_getFlag (fl : Nat) (k v : List Nat) :
    (createEntry fl k v).hdr.getFlag = fl % 256 := rfl

theorem createEntry_getKeySize (fl : Nat) (k v : List Nat) :
    (createEntry fl k v).hdr.getKeySize = k.length % 256 := rfl

theorem createEntry_getValueSize (fl : Nat) (k v : List Nat)
    (h : v.length < 2 ^ 32) :
    (createEntry fl k v).hdr.getValueSize = v.length :=
  le4_recompose v.length h

theorem createEntry_getChecksum (fl : Nat) (k v : List Nat)
    (h : crc32c v < 2 ^ 32) :
    (createEntry fl k v).hdr.getChecksum = crc32c v :=
  le4_recompose (crc32c v) h

theorem createEntry_entrySize (fl : Nat) (k v : List Nat)
    (hk : k.length ≤ 255) (hv : v.length ≤ MaxValueSize) :
    (createEntry fl k v).size = hdrSize + k.length + v.length := by
  unfold Entry.size Hdr.entrySize
  rw [createEntry_getKeySize, createEntry_getValueSize fl k v (by
    unfold MaxValueSize SegmentSize SegmentHeaderSize at hv
    omega)]
  rw [Nat.mod_eq_of_lt (by
    unfold MaxValueSize SegmentSize SegmentHeaderSize at hv
    unfold hdrSize
    omega)]
  congr 1
  omega

/-! ### Write-path lemmas -/

theorem mWrite_fits (f : MFile) (p : List Nat) (h1 : f.c < f.len)
    (h2 : f.c + p.length ≤ f.len) :
    f.write p =
      (p.length,
        { len := f.len, c := f.c + p.length, data := writeList f.data f.c p },
        false) := by
  unfold MFile.write
  rw [if_neg (by omega)]
  have hn : min p.length (f.len - f.c) = p.length := by omega
  simp only [hn, List.take_length]
  simp



theorem writeEntry_fits (s : Segment) (fl : Nat) (k v : List Nat)
    (hc : s.mfile.c = s.size) (hlen : s.mfile.len = SegmentSize)
    (hk : k.length ≤ 255) (hv : v.length ≤ MaxValueSize)
    (hfit : s.size + (hdrSize + k.length + max v.length 1) ≤ SegmentSize) :
    s.writeEntry (createEntry fl k v) =
      (none,
        { id := s.id
          mfile :=
            { len := s.mfile.len, c := s.size + hdrSize + k.length + v.length
              data := writeList s.mfile.data s.size
                ((createEntry fl k v).hdr.bytes ++ k ++ v) }
          size := s.size + hdrSize + k.length + v.length }) := by
  have hv32 : v.length < 2 ^ 32 := by
    unfold MaxValueSize SegmentSize SegmentHeaderSize at hv
    omega
  have hSS : SegmentSize = 2 ^ 30 := rfl
  have h10 : hdrSize = 10 := rfl
  have hes : (createEntry fl k v).size = hdrSize + k.length + v.length :=
    createEntry_entrySize fl k v hk hv
  have hks : (createEntry fl k v).hdr.getKeySize = k.length := by
    rw [createEntry_getKeySize, Nat.mod_eq_of_lt (by omega)]
  have hvs : (createEntry fl k v).hdr.getValueSize = v.length :=
    createEntry_getValueSize fl k v hv32
  have hbl : (createEntry fl k v).hdr.bytes.length = hdrSize :=
    createEntry_hdr_bytes_length fl k v
  have hkey : (createEntry fl k v).key = k := rfl
  have hval : (createEntry fl k v).value = v := rfl
  have hcw : s.canWrite (createEntry fl k v) = true := by
    unfold Segment.canWrite
    rw [hes, Nat.mod_eq_of_lt (by omega)]
    simp only [decide_eq_true_eq]
    omega
  have hW1 : s.mfile.write (createEntry fl k v).hdr.bytes =
      (hdrSize,
        { len := s.mfile.len, c := s.size + hdrSize,
          data := writeList s.mfile.data s.size (createEntry fl k v).hdr.bytes },
        false) := by
    rw [mWrite_fits s.mfile _ (by omega) (by rw [hbl]; omega)]
    rw [hbl, hc]
  have hW2 : MFile.write
      { len := s.mfile.len, c := s.size + hdrSize,
        data := writeList s.mfile.data s.size (createEntry fl k v).hdr.bytes } k =
      (k.length,
        { len := s.mfile.len, c := s.size + hdrSize + k.length,
          data := writeList
            (writeList s.mfile.data s.size (createEntry fl k v).hdr.bytes)
            (s.size + hdrSize) k },
        false) := by
    rw [mWrite_fits _ k (by show s.size + hdrSize < s.mfile.len; omega)
      (by show s.size + hdrSize + k.length ≤ s.mfile.len; omega)]
  have hW3 : MFile.write
      { len := s.mfile.len, c := s.size + hdrSize + k.length,
        data := writeList
          (writeList s.mfile.data s.size (createEntry fl k v).hdr.bytes)
          (s.size + hdrSize) k } v =
      (v.length,
        { len := s.mfile.len, c := s.size + hdrSize + k.length + v.length,
          data := writeList (writeList
              (writeList s.mfile.data s.size (createEntry fl k v).hdr.bytes)
              (s.size + hdrSize) k) (s.size + hdrSize + k.length) v },
        false) := by
    rw [mWrite_fits _ v (by show s.size + hdrSize + k.length < s.mfile.len; omega)
      (by show s.size + hdrSize + k.length + v.length ≤ s.mfile.len; omega)]
  unfold Segment.writeEntry
  rw [if_neg (by simp [hcw]), hW1]
  simp only [Bool.false_eq_true, if_false]
  rw [if_neg (show ¬ (hdrSize ≠ hdrSize) by omega), hkey, hW2]
  simp only [Bool.false_eq_true, if_false, hks]
  rw [if_neg (show ¬ (k.length ≠ k.length) by omega), hval, hW3]
  simp only [Bool.false_eq_true, if_false, hvs]
  rw [if_neg (show ¬ (v.length ≠ v.length) by omega)]
  have e1 : writeList (writeList s.mfile.data s.size (createEntry fl k v).hdr.bytes)
      (s.size + hdrSize) k =
      writeList s.mfile.data s.size ((createEntry fl k v).hdr.bytes ++ k) := by
    have := writeList_append s.mfile.data s.size (createEntry fl k v).hdr.bytes k
    rwa [hbl] at this
  have e2 : writeList (writeList s.mfile.data s.size
        ((createEntry fl k v).hdr.bytes ++ k)) (s.size + hdrSize + k.length) v =
      writeList s.mfile.data s.size ((createEntry fl k v).hdr.bytes ++ k ++ v) := by
    have := writeList_append s.mfile.data s.size
      ((createEntry fl k v).hdr.bytes ++ k) v
    rw [List.length_append, hbl, ← Nat.add_assoc] at this
    exact this
  rw [e1, e2]
  have hmod : (s.size + hdrSize + k.length + v.length) % 2 ^ 32 =
      s.size + hdrSize + k.length + v.length := Nat.mod_eq_of_lt (by omega)
  rw [hmod]

/-! ### Read-path lemmas -/

theorem readEntry_reads (s : Segment) (off : Nat) (hb : List Nat)
    (hoff : off < s.size)
    (hH : readBytes s.mfile.data off hdrSize = hb)
    (hfl : flagIsEntryValid (Hdr.getFlag ⟨hb⟩) = true)
    (h1 : off + hdrSize ≤ s.mfile.len)
    (h2 : off + hdrSize + Hdr.getKeySize ⟨hb⟩ ≤ s.mfile.len)
    (h3 : off + hdrSize + Hdr.getKeySize ⟨hb⟩ + Hdr.getValueSize ⟨hb⟩ ≤ s.mfile.len)
    (h4 : s.mfile.len < 2 ^ 32) :
    s.readEntry off =
      .ok ⟨readBytes s.mfile.data (off + hdrSize) (Hdr.getKeySize ⟨hb⟩),
        readBytes s.mfile.data (off + hdrSize + Hdr.getKeySize ⟨hb⟩)
          (Hdr.getValueSize ⟨hb⟩), ⟨hb⟩⟩ := by
  unfold Segment.readEntry
  rw [if_neg (by omega)]
  unfold MFile.readOff
  rw [if_neg (by omega), hH]
  simp only
  rw [if_neg (by simp [hfl])]
  rw [Nat.mod_eq_of_lt (show off + hdrSize < 2 ^ 32 by omega)]
  rw [if_neg (by omega)]
  simp only
  rw [Nat.mod_eq_of_lt (show off + hdrSize + Hdr.getKeySize ⟨hb⟩ < 2 ^ 32 by omega)]
  rw [if_neg (by omega)]

theorem readBytes_writeList_first (d : Nat → Nat) (off : Nat) (q r : List Nat) :
    readBytes (writeList d off (q ++ r)) off q.length = q := by
  rw [readBytes_writeList_front d off _ q.length (by simp)]
  exact List.take_left q r

theorem readBytes_writeList_middle (d : Nat → Nat) (off : Nat) (p q r : List Nat) :
    readBytes (writeList d off (p ++ q ++ r)) (off + p.length) q.length = q := by
  rw [readBytes_writeList_sub d off _ _ _ (by omega)
    (by simp only [List.length_append]; omega)]
  have hstep : ∀ i, i < q.length →
      (p ++ q ++ r).getD (off + p.length - off + i) 0 = q.getD i 0 := by
    intro i hi
    rw [Nat.add_sub_cancel_left]
    rw [getD_append_left _ _ _ (by simp only [List.length_append]; omega)]
    rw [getD_append_right _ _ _ (by omega)]
    congr 1
    omega
  calc (List.range q.length).map
        (fun i => (p ++ q ++ r).getD (off + p.length - off + i) 0)
      = (List.range q.length).map (fun i => q.getD i 0) := by
        apply List.map_congr_left
        intro i hi
        exact hstep i (by simpa using hi)
    _ = q := range_map_getD_self q

/-- Reading back an entry that `writeEntry` has just written (possibly with
further bytes appended after it on the same base store) yields exactly the
entry's key, value and header. -/
theorem readEntry_written (s : Segment) (d : Nat → Nat) (off : Nat) (fl : Nat)
    (k v : List Nat) (tail : List Nat)
    (hdata : s.mfile.data =
      writeList d off ((createEntry fl k v).hdr.bytes ++ k ++ v ++ tail))
    (hoff : off < s.size)
    (hk2 : k.length ≤ 255) (hv32 : v.length < 2 ^ 32)
    (hfl : fl = 1 ∨ fl = 2)
    (hfit : off + hdrSize + k.length + v.length ≤ s.mfile.len)
    (h4 : s.mfile.len < 2 ^ 32) :
    s.readEntry off = .ok ⟨k, v, (createEntry fl k v).hdr⟩ := by
  have hbl : (createEntry fl k v).hdr.bytes.length = hdrSize :=
    createEntry_hdr_bytes_length fl k v
  have heta : (⟨(createEntry fl k v).hdr.bytes⟩ : Hdr) = (createEntry fl k v).hdr :=
    rfl
  have hgf : Hdr.getFlag ⟨(createEntry fl k v).hdr.bytes⟩ = fl := by
    rw [heta, createEntry_getFlag, Nat.mod_eq_of_lt (by omega)]
  have hks : Hdr.getKeySize ⟨(createEntry fl k v).hdr.bytes⟩ = k.length := by
    rw [heta, createEntry_getKeySize, Nat.mod_eq_of_lt (by omega)]
  have hvs : Hdr.getValueSize ⟨(createEntry fl k v).hdr.bytes⟩ = v.length := by
    rw [heta]
    exact createEntry_getValueSize fl k v hv32
  have hH : readBytes s.mfile.data off hdrSize = (createEntry fl k v).hdr.bytes := by
    rw [hdata]
    have hre : (createEntry fl k v).hdr.bytes ++ k ++ v ++ tail =
        (createEntry fl k v).hdr.bytes ++ (k ++ (v ++ tail)) := by
      simp [List.append_assoc]
    rw [hre, ← hbl]
    exact readBytes_writeList_first d off _ _
  have hK : readBytes s.mfile.data (off + hdrSize) k.length = k := by
    rw [hdata]
    have hre : (createEntry fl k v).hdr.bytes ++ k ++ v ++ tail =
        (createEntry fl k v).hdr.bytes ++ k ++ (v ++ tail) := by
      simp [List.append_assoc]
    rw [hre, ← hbl]
    exact readBytes_writeList_middle d off _ k _
  have hV : readBytes s.mfile.data (off + hdrSize + k.length) v.length = v := by
    rw [hdata]
    have hlen2 : ((createEntry fl k v).hdr.bytes ++ k).length =
        hdrSize + k.length := by
      simp only [List.length_append, hbl]
    have := readBytes_writeList_middle d off ((createEntry fl k v).hdr.bytes ++ k)
      v tail
    rw [hlen2, ← Nat.add_assoc] at this
    exact this
  have := readEntry_reads s off (createEntry fl k v).hdr.bytes hoff hH
    (by rw [hgf]; rcases hfl with h | h <;> simp [h, flagIsEntryValid])
    (by omega) (by rw [hks]; omega) (by rw [hks, hvs]; omega) h4
  rw [this, hks, hvs, hK, hV, heta]

/-! ### Verification and write-success inversion -/

theorem verify_entry_ok (fl : Nat) (k v : List Nat)
    (hv32 : v.length < 2 ^ 32) (hcrc : crc32c v < 2 ^ 32) :
    Entry.verify ⟨k, v, (createEntry fl k v).hdr⟩ k = none := by
  unfold Entry.verify
  rw [if_neg]
  · rw [if_neg (by simp)]
    rw [if_neg]
    simp only [createEntry_getChecksum fl k v hcrc]
    omega
  · simp only [createEntry_getKeySize, createEntry_getValueSize fl k v hv32]
    push_neg
    exact ⟨rfl, (Nat.mod_eq_of_lt hv32).symm⟩

theorem writeEntry_ok_inv (s : Segment) (e : Entry)
    (hc : s.mfile.c = s.size) (hlen : s.mfile.len = SegmentSize)
    (h : (s.writeEntry e).1 = none) :
    e.hdr.bytes.length = hdrSize ∧
    e.hdr.getKeySize = e.key.length ∧
    e.hdr.getValueSize = e.value.length ∧
    s.size + (hdrSize + e.key.length + max e.value.length 1) ≤ SegmentSize := by
  unfold Segment.writeEntry at h
  by_cases hcw : s.canWrite e = true
  swap
  · rw [if_pos (by simp [hcw])] at h
    simp at h
  rw [if_neg (by simp [hcw])] at h
  rcases hw1 : s.mfile.write e.hdr.bytes with ⟨n1, f1, er1⟩
  rw [hw1] at h
  dsimp only at h
  cases er1
  swap
  · simp at h
  simp only [Bool.false_eq_true, if_false] at h
  by_cases hn1 : n1 ≠ hdrSize
  · rw [if_pos hn1] at h
    simp at h
  rw [if_neg hn1] at h
  push_neg at hn1
  unfold MFile.write at hw1
  by_cases hcl1 : s.mfile.c ≥ s.mfile.len
  · rw [if_pos hcl1] at hw1
    simp at hw1
  rw [if_neg hcl1] at hw1
  simp only [Prod.mk.injEq] at hw1
  obtain ⟨he1, hf1, her1⟩ := hw1
  simp only [decide_eq_false_iff_not, gt_iff_lt, not_lt] at her1
  have hbl : e.hdr.bytes.length = hdrSize := by
    omega
  have hf1c : f1.c = s.size + hdrSize := by
    rw [← hf1]
    show s.mfile.c + min e.hdr.bytes.length (s.mfile.len - s.mfile.c) =
      s.size + hdrSize
    omega
  have hf1l : f1.len = s.mfile.len := by
    rw [← hf1]
  rcases hw2 : f1.write e.key with ⟨n2, f2, er2⟩
  rw [hw2] at h
  dsimp only at h
  cases er2
  swap
  · simp at h
  simp only [Bool.false_eq_true, if_false] at h
  by_cases hn2 : n2 ≠ e.hdr.getKeySize
  · rw [if_pos hn2] at h
    simp at h
  rw [if_neg hn2] at h
  push_neg at hn2
  unfold MFile.write at hw2
  by_cases hcl2 : f1.c ≥ f1.len
  · rw [if_pos hcl2] at hw2
    simp at hw2
  rw [if_neg hcl2] at hw2
  simp only [Prod.mk.injEq] at hw2
  obtain ⟨he2, hf2, her2⟩ := hw2
  simp only [decide_eq_false_iff_not, gt_iff_lt, not_lt] at her2
  have hkl : n2 = e.key.length := by
    omega
  have hf2c : f2.c = s.size + hdrSize + e.key.length := by
    rw [← hf2]
    show f1.c + min e.key.length (f1.len - f1.c) = s.size + hdrSize + e.key.length
    omega
  have hf2l : f2.len = s.mfile.len := by
    rw [← hf2]
    show f1.len = s.mfile.len
    exact hf1l
  rcases hw3 : f2.write e.value with ⟨n3, f3, er3⟩
  rw [hw3] at h
  dsimp only at h
  cases er3
  swap
  · simp at h
  simp only [Bool.false_eq_true, if_false] at h
  by_cases hn3 : n3 ≠ e.hdr.getValueSize
  · rw [if_pos hn3] at h
    simp at h
  rw [if_neg hn3] at h
  push_neg at hn3
  unfold MFile.write at hw3
  by_cases hcl3 : f2.c ≥ f2.len
  · rw [if_pos hcl3] at hw3
    simp at hw3
  rw [if_neg hcl3] at hw3
  simp only [Prod.mk.injEq] at hw3
  obtain ⟨he3, hf3, her3⟩ := hw3
  simp only [decide_eq_false_iff_not, gt_iff_lt, not_lt] at her3
  have hvl : n3 = e.value.length := by
    omega
  refine ⟨hbl, by omega, by omega, ?_⟩
  rw [hf2c, hf2l, hlen] at hcl3 her3 he3
  omega

/-! ### The shape of a successful Put -/

theorem validateKey_none (k : List Nat) (h : validateKey k = none) :
    0 < k.length ∧ k.length ≤ MaxKeySize := by
  unfold validateKey at h
  split_ifs at h
  constructor <;> omega

theorem DBInv_get? (db : DB) (i : Nat) (s : Segment)
    (hInv : DBInv db) (h : db.segments[i]? = some s) : SegOK i s := by
  obtain ⟨-, hSeg⟩ := hInv
  rcases List.getElem?_eq_some_iff.mp h with ⟨hb, he⟩
  have := hSeg i hb
  rwa [List.get_eq_getElem, he] at this

theorem put_ok_spec (db db' : DB) (k v : List Nat)
    (hInv : DBInv db) (h : db.put k v = (.ok (), db')) :
    0 < k.length ∧ k.length ≤ 255 ∧ v.length ≤ MaxValueSize ∧
      validateKey k = none ∧
      (db'.segments.length = db.segments.length ∨
        db'.segments.length = db.segments.length + 1) ∧
      (∀ i, i < db'.segments.length - 1 → db'.segments[i]? = db.segments[i]?) ∧
      ∃ dpre off,
        SegmentHeaderSize ≤ off ∧
        off + hdrSize + k.length + v.length ≤ SegmentSize ∧
        db'.segments[db'.segments.length - 1]? =
          some ⟨(db'.segments.length - 1) % 2 ^ 16,
            ⟨SegmentSize, off + hdrSize + k.length + v.length,
              writeList dpre off ((createEntry 1 k v).hdr.bytes ++ k ++ v)⟩,
            off + hdrSize + k.length + v.length⟩ ∧
        db'.index = fun kk =>
          if kk = k then some ⟨(db'.segments.length - 1) % 2 ^ 16, off⟩
          else db.index kk := by
  have hne := hInv.1
  have hlenpos : 0 < db.segments.length := List.length_pos.mpr hne
  unfold DB.put at h
  cases hvk : validateKey k with
  | some er =>
    rw [hvk] at h
    simp at h
  | none =>
  rw [hvk] at h
  dsimp only at h
  obtain ⟨hk0, hkMax⟩ := validateKey_none k hvk
  by_cases hvlen : v.length > MaxValueSize
  · rw [if_pos hvlen] at h
    simp at h
  rw [if_neg hvlen] at h
  simp only [DB.set, DB.activeSegment] at h
  rcases hsl : db.segments[db.segments.length - 1]? with _ | sl
  · rw [List.getElem?_eq_getElem (by omega)] at hsl
    simp at hsl
  have hlast : db.segments.getLast? = some sl := by
    rw [List.getLast?_eq_getElem?, hsl]
  simp only [hlast] at h
  obtain ⟨hid, hflen, hfc, hs6, hsS⟩ :=
    DBInv_get? db (db.segments.length - 1) sl hInv hsl
  by_cases hcw : sl.canWrite (createEntry 1 k v) = true
  · -- the active segment can fit the entry: write in place
    rw [hcw] at h
    simp only [Bool.not_true, Bool.false_eq_true, if_false] at h
    rw [List.getD_eq_getElem?_getD, hsl] at h
    simp only [Option.getD_some] at h
    rcases hwe : sl.writeEntry (createEntry 1 k v) with ⟨oe, s'⟩
    rw [hwe] at h
    cases oe with
    | some er => simp at h
    | none =>
    simp only [Prod.mk.injEq, true_and] at h
    obtain ⟨hbl, hgks, hgvs, hfit⟩ :=
      writeEntry_ok_inv _ _ hfc hflen (by rw [hwe])
    have hk255 : k.length ≤ 255 := by
      rw [createEntry_getKeySize] at hgks
      have hmm : k.length % 256 = k.length := hgks
      omega
    have hfit' : sl.size + (hdrSize + k.length + max v.length 1) ≤ SegmentSize :=
      hfit
    have hwe2 := writeEntry_fits sl 1 k v hfc hflen hk255 (by omega) hfit'
    rw [hwe] at hwe2
    simp only [Prod.mk.injEq, true_and] at hwe2
    have hesz : (createEntry 1 k v).size = hdrSize + k.length + v.length :=
      createEntry_entrySize 1 k v hk255 (by omega)
    have hsid : s'.id = (db.segments.length - 1) % 2 ^ 16 := by
      rw [hwe2]
      exact hid
    have hsoff : s'.size - (createEntry 1 k v).size = sl.size := by
      rw [hwe2, hesz]
      show sl.size + hdrSize + k.length + v.length -
        (hdrSize + k.length + v.length) = sl.size
      omega
    refine ⟨hk0, hk255, by omega, rfl, ?_, ?_, ?_⟩
    · left
      rw [← h]
      simp [List.length_set]
    · intro i hi
      rw [← h] at hi ⊢
      simp only [List.length_set] at hi ⊢
      exact List.getElem?_set_ne (by omega)
    · refine ⟨sl.mfile.data, sl.size, hs6, by omega, ?_, ?_⟩
      · rw [← h]
        simp only [List.length_set]
        rw [List.getElem?_set_self (by omega), hwe2, hid, hflen]
      · rw [← h]
        show (fun kk => if kk = k then
            some ⟨s'.id, s'.size - (createEntry 1 k v).size⟩
          else db.index kk) = _
        simp only [List.length_set, hsid, hsoff]
  · -- rollover: a fresh segment is created and written
    have hcwf : sl.canWrite (createEntry 1 k v) = false := by
      revert hcw
      cases sl.canWrite (createEntry 1 k v) <;> simp
    rw [hcwf] at h
    simp only [Bool.not_false, if_true] at h
    simp only [DB.createSegment] at h
    simp only [hlast] at h
    simp only [List.length_append, List.length_singleton, Nat.add_sub_cancel] at h
    rw [List.getD_eq_getElem?_getD, List.getElem?_concat_length] at h
    simp only [Option.getD_some] at h
    rcases hwe : (freshSegment ((sl.id + 1) % 2 ^ 16)).writeEntry
        (createEntry 1 k v) with ⟨oe, s'⟩
    rw [hwe] at h
    cases oe with
    | some er => simp at h
    | none =>
    simp only [Prod.mk.injEq, true_and] at h
    obtain ⟨hbl, hgks, hgvs, hfit⟩ :=
      writeEntry_ok_inv _ _ rfl rfl (by rw [hwe])
    have hk255 : k.length ≤ 255 := by
      rw [createEntry_getKeySize] at hgks
      have hmm : k.length % 256 = k.length := hgks
      omega
    have hfit' : SegmentHeaderSize + (hdrSize + k.length + max v.length 1) ≤
        SegmentSize := hfit
    have hwe2 := writeEntry_fits (freshSegment ((sl.id + 1) % 2 ^ 16)) 1 k v
      rfl rfl hk255 (by omega) hfit'
    rw [hwe] at hwe2
    simp only [Prod.mk.injEq, true_and] at hwe2
    simp only [freshSegment] at hwe2
    have hesz : (createEntry 1 k v).size = hdrSize + k.length + v.length :=
      createEntry_entrySize 1 k v hk255 (by omega)
    have hsid : s'.id = db.segments.length % 2 ^ 16 := by
      rw [hwe2]
      show (sl.id + 1) % 2 ^ 16 % 2 ^ 16 = db.segments.length % 2 ^ 16
      omega
    have hsoff : s'.size - (createEntry 1 k v).size = SegmentHeaderSize := by
      rw [hwe2, hesz]
      show SegmentHeaderSize + hdrSize + k.length + v.length -
        (hdrSize + k.length + v.length) = SegmentHeaderSize
      omega
    refine ⟨hk0, hk255, by omega, rfl, ?_, ?_, ?_⟩
    · right
      rw [← h]
      simp [List.length_set, List.length_append]
    · intro i hi
      rw [← h] at hi ⊢
      simp only [List.length_set, List.length_append, List.length_singleton,
        Nat.add_sub_cancel] at hi ⊢
      rw [List.getElem?_set_ne (by omega), List.getElem?_append, if_pos (by omega)]
    · refine ⟨freshData, SegmentHeaderSize, le_rfl, by omega, ?_, ?_⟩
      · rw [← h]
        simp only [List.length_set, List.length_append, List.length_singleton,
          Nat.add_sub_cancel]
        rw [List.getElem?_set_self (by simp), hwe2]
        have hidval : (sl.id + 1) % 2 ^ 16 % 2 ^ 16 =
            db.segments.length % 2 ^ 16 := by
          omega
        rw [hidval]
      · rw [← h]
        show (fun kk => if kk = k then
            some ⟨s'.id, s'.size - (createEntry 1 k v).size⟩
          else db.index kk) = _
        simp only [List.length_set, List.length_append, List.length_singleton,
          Nat.add_sub_cancel, hsid, hsoff]

/-! ### Invariant preservation and read-after-write -/

theorem DBInv_db0 : DBInv db0 := by
  constructor
  · simp [db0]
  · intro i h
    simp only [db0, List.length_singleton] at h
    interval_cases i
    refine ⟨rfl, rfl, rfl, le_rfl, ?_⟩
    show SegmentHeaderSize ≤ SegmentSize
    norm_num [SegmentHeaderSize, SegmentSize]

theorem put_ok_inv (db db' : DB) (k v : List Nat)
    (hInv : DBInv db) (h : db.put k v = (.ok (), db')) : DBInv db' := by
  have hlenpos : 0 < db.segments.length := List.length_pos.mpr hInv.1
  obtain ⟨hk0, hk255, hvMax, hvk, hlens, hothers, dpre, off, hoff6, hoffS,
    hlastseg, hidx⟩ := put_ok_spec db db' k v hInv h
  have hlenpos' : 0 < db'.segments.length := by omega
  constructor
  · exact List.ne_nil_of_length_pos hlenpos'
  · intro i hi
    by_cases hilast : i = db'.segments.length - 1
    · subst hilast
      rcases List.getElem?_eq_some_iff.mp hlastseg with ⟨hb2, he2⟩
      rw [List.get_eq_getElem, he2]
      refine ⟨rfl, rfl, rfl, ?_, ?_⟩
      · show SegmentHeaderSize ≤ off + hdrSize + k.length + v.length
        omega
      · show off + hdrSize + k.length + v.length ≤ SegmentSize
        omega
    · have hio : i < db'.segments.length - 1 := by omega
      have heq := hothers i hio
      have hib : i < db.segments.length := by omega
      rw [List.getElem?_eq_getElem hib] at heq
      have hprev := (hInv.2) i hib
      have he3 : db'.segments.get ⟨i, hi⟩ = db.segments.get ⟨i, hib⟩ := by
        rw [List.get_eq_getElem, List.get_eq_getElem]
        have h5 := heq
        rw [List.getElem?_eq_getElem hi] at h5
        simpa using h5
      rw [he3]
      exact hprev

theorem foldl_putStep_false (ops : List (List Nat × List Nat)) :
    ∀ db : DB, (ops.foldl putStep (db, false)).2 = false := by
  induction ops with
  | nil => intro db; rfl
  | cons op t ih =>
    intro db
    simp only [List.foldl_cons]
    unfold putStep
    rcases hp : db.put op.1 op.2 with ⟨r, db1⟩
    simp only [Bool.false_and]
    exact ih db1

theorem applyPuts_inv (ops : List (List Nat × List Nat)) :
    ∀ db : DB, DBInv db → (applyPuts ops db).2 = true →
      DBInv (applyPuts ops db).1 := by
  induction ops with
  | nil =>
    intro db hInv _
    exact hInv
  | cons op t ih =>
    intro db hInv hok
    unfold applyPuts at hok ⊢
    simp only [List.foldl_cons] at hok ⊢
    rcases hp : db.put op.1 op.2 with ⟨r, db1⟩
    by_cases hr : r = .ok ()
    · subst hr
      have hstep : putStep (db, true) op = (db1, true) := by
        unfold putStep
        rw [hp]
        simp
      rw [hstep] at hok ⊢
      exact ih db1 (put_ok_inv db db1 op.1 op.2 hInv hp) hok
    · exfalso
      have hstep : putStep (db, true) op = (db1, false) := by
        unfold putStep
        rw [hp]
        simp [hr]
      rw [hstep] at hok
      rw [foldl_putStep_false t db1] at hok
      exact Bool.false_ne_true hok

theorem get_after_put (db db' : DB) (k v : List Nat)
    (hInv : DBInv db) (h : db.put k v = (.ok (), db'))
    (hbytes : IsBytes v) (hlen : db'.segments.length ≤ 2 ^ 16) :
    db'.get k = .ok v := by
  have hlenpos : 0 < db.segments.length := List.length_pos.mpr hInv.1
  obtain ⟨hk0, hk255, hvMax, hvk, hlens, hothers, dpre, off, hoff6, hoffS,
    hlastseg, hidx⟩ := put_ok_spec db db' k v hInv h
  have hlenpos' : 0 < db'.segments.length := by omega
  unfold DB.get
  rw [hvk]
  dsimp only
  rw [hidx]
  dsimp only
  rw [if_pos rfl]
  have hpos : (db'.segments.length - 1) % 2 ^ 16 = db'.segments.length - 1 :=
    Nat.mod_eq_of_lt (by omega)
  rw [hpos]
  dsimp only
  rw [List.get?_eq_getElem?, hlastseg]
  dsimp only
  have hread := readEntry_written
    (⟨(db'.segments.length - 1) % 2 ^ 16,
      ⟨SegmentSize, off + hdrSize + k.length + v.length,
        writeList dpre off ((createEntry 1 k v).hdr.bytes ++ k ++ v)⟩,
      off + hdrSize + k.length + v.length⟩ : Segment)
    dpre off 1 k v []
    (by show writeList dpre off ((createEntry 1 k v).hdr.bytes ++ k ++ v) = _
        rw [List.append_nil])
    (by show off < off + hdrSize + k.length + v.length
        omega)
    hk255
    (by unfold MaxValueSize SegmentSize SegmentHeaderSize at hvMax; omega)
    (Or.inl rfl)
    (by show off + hdrSize + k.length + v.length ≤ SegmentSize; omega)
    (by show SegmentSize < 2 ^ 32; norm_num [SegmentSize])
  rw [hread]
  dsimp only
  rw [verify_entry_ok 1 k v
    (by unfold MaxValueSize SegmentSize SegmentHeaderSize at hvMax; omega)
    (crc32c_lt v hbytes)]

/-! ### Segment-id wrap-around: 65536 rollovers break the round trip -/

theorem wrapValue_length : wrapValue.length = 2 ^ 30 - 17 :=
  List.length_replicate _ _

theorem wrapValue_max : wrapValue.length ≤ MaxValueSize := by
  rw [wrapValue_length]
  norm_num [MaxValueSize, SegmentSize, SegmentHeaderSize]

theorem wrap_entry_size : (createEntry 1 [1] wrapValue).size = 2 ^ 30 - 6 := by
  rw [createEntry_entrySize 1 [1] wrapValue (by norm_num) wrapValue_max,
    wrapValue_length]
  norm_num [hdrSize]

theorem writeEntry_fresh_wrap (i : Nat) :
    (freshSegment i).writeEntry (createEntry 1 [1] wrapValue) =
      (none, fullSeg i) := by
  have hfit : (freshSegment i).size +
      (hdrSize + ([1] : List Nat).length + max wrapValue.length 1) ≤
      SegmentSize := by
    rw [wrapValue_length]
    norm_num [freshSegment, SegmentHeaderSize, hdrSize, SegmentSize]
  rw [writeEntry_fits (freshSegment i) 1 [1] wrapValue rfl rfl (by norm_num)
    wrapValue_max hfit]
  have hsz : (freshSegment i).size + hdrSize + ([1] : List Nat).length +
      wrapValue.length = SegmentSize := by
    show SegmentHeaderSize + hdrSize + 1 + wrapValue.length = SegmentSize
    rw [wrapValue_length]
    norm_num [SegmentHeaderSize, hdrSize, SegmentSize]
  simp only [Prod.mk.injEq, true_and]
  show Segment.mk (i % 2 ^ 16) _ _ = fullSeg i
  unfold fullSeg fullSegData
  rw [Segment.mk.injEq]
  refine ⟨rfl, ?_, hsz⟩
  rw [MFile.mk.injEq]
  exact ⟨rfl, hsz, rfl⟩

theorem fullSeg_cannot_write : ∀ i,
    (fullSeg i).canWrite (createEntry 1 [1] wrapValue) = false := by
  intro i
  unfold Segment.canWrite
  rw [wrap_entry_size]
  show decide ((SegmentSize + (2 ^ 30 - 6)) % 2 ^ 32 ≤ SegmentSize) = false
  norm_num [SegmentSize]

theorem wrapDB_getLast (m : Nat) (h : 1 ≤ m) :
    ((List.range m).map fullSeg).getLast? = some (fullSeg (m - 1)) := by
  rw [List.getLast?_eq_getElem?]
  simp only [List.length_map, List.length_range, List.getElem?_map]
  rw [List.getElem?_range (by omega)]
  rfl


/-- Once key validation and the value-size check pass, `put` reduces to `set`
with the put flag. -/
theorem put_eq_set (db : DB) (k v : List Nat) (hk : validateKey k = none)
    (hv : ¬ v.length > MaxValueSize) : db.put k v = db.set k v 1 := by
  unfold DB.put
  rw [hk]
  dsimp only
  rw [if_neg hv]

/-- Setting the position just past an original list in a one-element extension
overwrites that appended element. -/
theorem set_concat_last {α : Type} (l : List α) (a b : α) :
    (l ++ [a]).set l.length b = l ++ [b] := by
  induction l with
  | nil => rfl
  | cons x xs ih =>
    show x :: ((xs ++ [a]).set xs.length b) = x :: (xs ++ [b])
    rw [ih]

/-- `set` without rollover: when the active segment accepts the entry and the
write succeeds, the last segment is replaced by the written state and the index
points at the new entry. -/
theorem set_stay_spec (db : DB) (k v : List Nat) (fl : Nat) (s s' : Segment)
    (hact : db.segments.getLast? = some s)
    (hcw : s.canWrite (createEntry fl k v) = true)
    (hw : (db.segments.getD (db.segments.length - 1)
        (freshSegment 0)).writeEntry (createEntry fl k v) = (none, s')) :
    db.set k v fl = (.ok (),
      { db with
        segments := db.segments.set (db.segments.length - 1) s'
        index := fun kk => if kk = k then
            some ⟨s'.id, s'.size - (createEntry fl k v).size⟩
          else db.index kk }) := by
  unfold DB.set DB.activeSegment
  rw [hact]
  dsimp only
  rw [hcw]
  simp only [Bool.not_true, Bool.false_eq_true, if_false]
  rw [hw]

/-- `set` with rollover: when the active segment rejects the entry and the
write into a fresh segment with the successor id (uint16 arithmetic) succeeds,
that written segment is appended and indexed. -/
theorem set_roll_spec (db : DB) (k v : List Nat) (fl : Nat) (s s' : Segment)
    (hact : db.segments.getLast? = some s)
    (hcw : s.canWrite (createEntry fl k v) = false)
    (hw : (freshSegment ((s.id + 1) % 2 ^ 16)).writeEntry
        (createEntry fl k v) = (none, s')) :
    db.set k v fl = (.ok (),
      { db with
        segments := db.segments ++ [s']
        index := fun kk => if kk = k then
            some ⟨s'.id, s'.size - (createEntry fl k v).size⟩
          else db.index kk }) := by
  unfold DB.set DB.activeSegment DB.createSegment
  rw [hact]
  dsimp only
  rw [hcw]
  simp only [Bool.not_false, if_true]
  simp only [List.length_append, List.length_singleton, Nat.add_sub_cancel]
  rw [List.getD_eq_getElem?_getD, List.getElem?_concat_length]
  simp only [Option.getD_some]
  rw [hw]
  dsimp only
  rw [set_concat_last]

theorem put_wrap_base : db0.put [1] wrapValue = (.ok (), wrapDB 1) := by
  have hcw : (freshSegment 0).canWrite (createEntry 1 [1] wrapValue) = true := by
    unfold Segment.canWrite
    rw [wrap_entry_size]
    rw [show (freshSegment 0).size = SegmentHeaderSize from rfl]
    norm_num [SegmentSize, SegmentHeaderSize]
  have hw : (db0.segments.getD (db0.segments.length - 1)
      (freshSegment 0)).writeEntry (createEntry 1 [1] wrapValue) =
      (none, fullSeg 0) := by
    rw [show db0.segments.getD (db0.segments.length - 1) (freshSegment 0) =
      freshSegment 0 from rfl]
    exact writeEntry_fresh_wrap 0
  rw [put_eq_set db0 [1] wrapValue (by decide)
    (by rw [wrapValue_length]; norm_num [MaxValueSize, SegmentSize,
      SegmentHeaderSize])]
  rw [set_stay_spec db0 [1] wrapValue 1 (freshSegment 0) (fullSeg 0) rfl hcw hw]
  rw [Prod.mk.injEq]
  refine ⟨rfl, ?_⟩
  unfold wrapDB
  rw [DB.mk.injEq]
  refine ⟨rfl, ?_, rfl⟩
  funext kk
  by_cases hkk : kk = [1]
  · subst hkk
    rw [if_pos rfl, if_pos rfl]
    rw [show (fullSeg 0).size - (createEntry 1 [1] wrapValue).size =
      SegmentHeaderSize by
        rw [wrap_entry_size]
        rw [show (fullSeg 0).size = SegmentSize from rfl]
        norm_num [SegmentSize, SegmentHeaderSize]]
    rfl
  · simp only [if_neg hkk]
    rfl

theorem put_wrap_step (m : Nat) (h1 : 1 ≤ m) (h2 : m < 2 ^ 16) :
    (wrapDB m).put [1] wrapValue = (.ok (), wrapDB (m + 1)) := by
  have hid : ((fullSeg (m - 1)).id + 1) % 2 ^ 16 = m := by
    show ((m - 1) % 2 ^ 16 + 1) % 2 ^ 16 = m
    omega
  have hact : (wrapDB m).segments.getLast? = some (fullSeg (m - 1)) := by
    show ((List.range m).map fullSeg).getLast? = some (fullSeg (m - 1))
    exact wrapDB_getLast m h1
  have hw : (freshSegment (((fullSeg (m - 1)).id + 1) % 2 ^ 16)).writeEntry
      (createEntry 1 [1] wrapValue) = (none, fullSeg m) := by
    rw [hid]
    exact writeEntry_fresh_wrap m
  rw [put_eq_set (wrapDB m) [1] wrapValue (by decide)
    (by rw [wrapValue_length]; norm_num [MaxValueSize, SegmentSize,
      SegmentHeaderSize])]
  rw [set_roll_spec (wrapDB m) [1] wrapValue 1 (fullSeg (m - 1)) (fullSeg m)
    hact (fullSeg_cannot_write (m - 1)) hw]
  rw [Prod.mk.injEq]
  refine ⟨rfl, ?_⟩
  rw [DB.mk.injEq]
  refine ⟨?_, ?_, rfl⟩
  · show (List.range m).map fullSeg ++ [fullSeg m] =
      (List.range (m + 1)).map fullSeg
    rw [List.range_succ, List.map_append, List.map_singleton]
  · funext kk
    dsimp only [wrapDB]
    by_cases hkk : kk = [1]
    · subst hkk
      rw [if_pos rfl, if_pos rfl]
      rw [show (fullSeg m).size - (createEntry 1 [1] wrapValue).size =
        SegmentHeaderSize by
          rw [wrap_entry_size]
          rw [show (fullSeg m).size = SegmentSize from rfl]
          norm_num [SegmentSize, SegmentHeaderSize]]
      rw [show (fullSeg m).id = m % 2 ^ 16 from rfl]
      rw [show (m + 1 - 1) % 2 ^ 16 = m % 2 ^ 16 from by omega]
    · simp only [if_neg hkk]

/-- Evaluating one `putStep` with a known put result. -/
theorem putStep_eq (dbb : DB) (b : Bool) (kk vv : List Nat) (r : Except Err Unit)
    (db' : DB) (h : dbb.put kk vv = (r, db')) :
    putStep (dbb, b) (kk, vv) = (db', b && decide (r = .ok ())) := by
  unfold putStep
  rw [show ((dbb, b) : DB × Bool).1 = dbb from rfl,
    show ((kk, vv) : List Nat × List Nat).1 = kk from rfl,
    show ((kk, vv) : List Nat × List Nat).2 = vv from rfl, h]

/-- After `n` wrap-around puts (`1 ≤ n ≤ 2^16`) every put has succeeded and
the database is `wrapDB n`. -/
theorem applyPuts_wrap (n : Nat) : 1 ≤ n → n ≤ 2 ^ 16 →
    applyPuts (wrapOps n) db0 = (wrapDB n, true) := by
  induction n with
  | zero => intro h _; exact absurd h (by norm_num)
  | succ m ih =>
    intro _ h2
    by_cases hm : m = 0
    · subst hm
      unfold applyPuts
      rw [show wrapOps 1 = [([1], wrapValue)] from by
        unfold wrapOps
        rfl]
      rw [List.foldl_cons, List.foldl_nil]
      rw [putStep_eq db0 true [1] wrapValue (.ok ()) (wrapDB 1) put_wrap_base]
      simp
    · have hm1 : 1 ≤ m := by omega
      have hsplit : wrapOps (m + 1) = wrapOps m ++ [([1], wrapValue)] := by
        unfold wrapOps
        rw [List.replicate_succ']
      rw [hsplit]
      unfold applyPuts
      rw [List.foldl_append]
      have hih := ih hm1 (by omega)
      unfold applyPuts at hih
      rw [hih]
      rw [List.foldl_cons, List.foldl_nil]
      rw [putStep_eq (wrapDB m) true [1] wrapValue (.ok ()) (wrapDB (m + 1))
        (put_wrap_step m hm1 (by omega))]
      simp

/-- The size of the `foo ↦ bar` entry: 10-byte header plus 3+3 payload
bytes. -/
theorem fooEntry_size : (createEntry 1 [102, 111, 111] [98, 97, 114]).size = 16 := by
  rw [createEntry_entrySize 1 _ _ (by norm_num)
    (by norm_num [MaxValueSize, SegmentSize, SegmentHeaderSize])]
  norm_num [hdrSize]

/-- A completely full segment rejects even the small `foo ↦ bar` entry. -/
theorem fullSeg_cannot_write_foo (i : Nat) :
    (fullSeg i).canWrite (createEntry 1 [102, 111, 111] [98, 97, 114]) = false := by
  unfold Segment.canWrite
  rw [fooEntry_size]
  rw [show (fullSeg i).size = SegmentSize from rfl]
  norm_num [SegmentSize]

/-- Writing the `foo ↦ bar` entry into a fresh segment with id 0 yields
`fooSeg`. -/
theorem writeEntry_fresh_foo :
    (freshSegment 0).writeEntry (createEntry 1 [102, 111, 111] [98, 97, 114]) =
      (none, fooSeg) := by
  rw [writeEntry_fits (freshSegment 0) 1 [102, 111, 111] [98, 97, 114] rfl rfl
    (by norm_num) (by norm_num [MaxValueSize, SegmentSize, SegmentHeaderSize])
    (by norm_num [freshSegment, SegmentHeaderSize, hdrSize, SegmentSize])]
  rfl

/-- `Put("foo", "bar")` on the database whose 65536 segments exhaust the
uint16 id space: the put succeeds, rolling over into a segment whose id wraps
to 0. -/
theorem put_foo_wrapFull :
    (wrapDB (2 ^ 16)).put [102, 111, 111] [98, 97, 114] = (.ok (), badDB) := by
  have hact : (wrapDB (2 ^ 16)).segments.getLast? =
      some (fullSeg (2 ^ 16 - 1)) := by
    simp only [wrapDB]
    exact wrapDB_getLast (2 ^ 16) (by norm_num)
  have hw : (freshSegment (((fullSeg (2 ^ 16 - 1)).id + 1) % 2 ^ 16)).writeEntry
      (createEntry 1 [102, 111, 111] [98, 97, 114]) = (none, fooSeg) := by
    rw [show ((fullSeg (2 ^ 16 - 1)).id + 1) % 2 ^ 16 = 0 from by
      show ((2 ^ 16 - 1) % 2 ^ 16 + 1) % 2 ^ 16 = 0
      norm_num]
    exact writeEntry_fresh_foo
  rw [put_eq_set (wrapDB (2 ^ 16)) [102, 111, 111] [98, 97, 114] (by decide)
    (by norm_num [MaxValueSize, SegmentSize, SegmentHeaderSize])]
  rw [set_roll_spec (wrapDB (2 ^ 16)) [102, 111, 111] [98, 97, 114] 1
    (fullSeg (2 ^ 16 - 1)) fooSeg hact (fullSeg_cannot_write_foo (2 ^ 16 - 1)) hw]
  rw [Prod.mk.injEq]
  refine ⟨rfl, ?_⟩
  unfold badDB
  rw [DB.mk.injEq]
  refine ⟨by simp only [wrapDB], ?_, rfl⟩
  funext kk
  by_cases hkk : kk = [102, 111, 111]
  · subst hkk
    rw [if_pos rfl, if_pos rfl]
    rw [show fooSeg.size - (createEntry 1 [102, 111, 111] [98, 97, 114]).size =
      SegmentHeaderSize from by
        rw [fooEntry_size]
        rw [show fooSeg.size = 22 from rfl]
        norm_num [SegmentHeaderSize]]
    rfl
  · rw [if_neg hkk, if_neg hkk]
    dsimp only [wrapDB]

/-- Evaluating `db.Get` along a known index hit: validation passed, the index
points at `it`, and segment lookup yields `s`. -/
theorem get_eval (db : DB) (k : List Nat) (it : IndexRec) (s : Segment)
    (hk : validateKey k = none) (hidx : db.index k = some it)
    (hseg : db.segments.get? it.seg = some s) :
    db.get k = (match s.readEntry it.off with
      | .error e => .error e
      | .ok e =>
        match e.verify k with
        | some er => .error er
        | none => .ok e.value) := by
  unfold DB.get
  rw [hk]
  dsimp only
  rw [hidx]
  dsimp only
  rw [hseg]

/-- `db.Get` returns the verification error when the index hit resolves to a
segment whose entry fails verification. -/
theorem get_eval_verify (db : DB) (k : List Nat) (it : IndexRec) (s : Segment)
    (e : Entry) (er : Err)
    (hk : validateKey k = none) (hidx : db.index k = some it)
    (hseg : db.segments.get? it.seg = some s)
    (hre : s.readEntry it.off = .ok e)
    (hv : e.verify k = some er) :
    db.get k = .error er := by
  rw [get_eval db k it s hk hidx hseg]
  rw [hre]
  dsimp only
  rw [hv]

/-- Reading the entry stored at offset 6 of a full wrap segment yields the
wrap entry for key `[1]`. -/
theorem readEntry_fullSeg :
    (fullSeg 0).readEntry SegmentHeaderSize =
      .ok ⟨[1], wrapValue, (createEntry 1 [1] wrapValue).hdr⟩ := by
  apply readEntry_written (fullSeg 0) freshData SegmentHeaderSize 1 [1] wrapValue []
  · show fullSegData = writeList freshData SegmentHeaderSize
      ((createEntry 1 [1] wrapValue).hdr.bytes ++ [1] ++ wrapValue ++ [])
    rw [List.append_nil]
    rfl
  · rw [show (fullSeg 0).size = SegmentSize from rfl]
    norm_num [SegmentSize, SegmentHeaderSize]
  · norm_num
  · rw [wrapValue_length]
    norm_num
  · exact Or.inl rfl
  · rw [show (fullSeg 0).mfile.len = SegmentSize from rfl, wrapValue_length]
    norm_num [SegmentSize, SegmentHeaderSize, hdrSize]
  · rw [show (fullSeg 0).mfile.len = SegmentSize from rfl]
    norm_num [SegmentSize]

/-- Verifying a written entry against a different key fails with the key
mismatch error. -/
theorem verify_wrong_key (fl : Nat) (k v key : List Nat)
    (hv32 : v.length < 2 ^ 32) (hne : k ≠ key) :
    Entry.verify ⟨k, v, (createEntry fl k v).hdr⟩ key = some .keyMismatch := by
  unfold Entry.verify
  rw [if_neg]
  · rw [if_pos (by simpa using hne)]
  · simp only [createEntry_getKeySize, createEntry_getValueSize fl k v hv32]
    push_neg
    exact ⟨rfl, (Nat.mod_eq_of_lt hv32).symm⟩

/-- Verifying the wrap entry against the key `"foo"` fails with the key
mismatch error. -/
theorem verify_wrap_foo :
    Entry.verify ⟨[1], wrapValue, (createEntry 1 [1] wrapValue).hdr⟩
      [102, 111, 111] = some .keyMismatch :=
  verify_wrong_key 1 [1] wrapValue [102, 111, 111]
    (by rw [wrapValue_length]; norm_num) (by decide)

/-- `Get("foo")` on the wrapped-around database resolves the stale segment id
0 to the first full segment, reads the wrap entry there, and fails with
`ErrKeyMismatch` instead of returning `"bar"`. -/
theorem badDB_get_foo : badDB.get [102, 111, 111] = .error .keyMismatch := by
  have hidx : badDB.index [102, 111, 111] =
      some ⟨0, SegmentHeaderSize⟩ := by
    dsimp only [badDB]
    rw [if_pos rfl]
  have hseg : badDB.segments.get? (0 : Nat) = some (fullSeg 0) := by
    simp only [badDB]
    rw [List.get?_eq_getElem?]
    rw [List.getElem?_append]
    rw [if_pos (by simp only [List.length_map, List.length_range]; norm_num)]
    rw [List.getElem?_map]
    rw [List.getElem?_range (by norm_num)]
    rfl
  exact get_eval_verify badDB [102, 111, 111] ⟨0, SegmentHeaderSize⟩ (fullSeg 0)
    ⟨[1], wrapValue, (createEntry 1 [1] wrapValue).hdr⟩ .keyMismatch
    (by decide) hidx hseg readEntry_fullSeg verify_wrap_foo

/-- The scan loop of the mmap.File segment draft accesses only mapped bytes:
whatever the contents, it never reports an out-of-range access. -/
theorem scanLoop_no_oor (len : Nat) (d : Nat → Nat) :
    ∀ fuel size, scanLoop len d fuel size ≠ .oor := by
  intro fuel
  induction fuel with
  | zero =>
    intro size
    show scanLoop len d 0 size ≠ .oor
    unfold scanLoop
    intro h
    cases h
  | succ n ih =>
    intro size
    show scanLoop len d (n + 1) size ≠ .oor
    unfold scanLoop
    by_cases h1 : size ≥ len
    · rw [if_pos h1]
      intro h
      cases h
    · rw [if_neg h1]
      by_cases h2 : size + hdrSize > len
      · rw [if_pos h2]
        intro h
        cases h
      · rw [if_neg h2]
        dsimp only
        by_cases h3 : ¬ flagIsEntryValid (Hdr.getFlag ⟨readBytes d size hdrSize⟩)
        · rw [if_pos h3]
          intro h
          cases h
        · rw [if_neg h3]
          exact ih _

/-- A write into a segment that cannot hold the entry fails with
`ErrSegmentNotWritable` and leaves the segment unchanged. -/
theorem writeEntry_cannot (s : Segment) (e : Entry) (h : s.canWrite e = false) :
    s.writeEntry e = (some .segmentNotWritable, s) := by
  unfold Segment.writeEntry
  rw [if_pos (by simp [h])]

/-- `set` with rollover whose write fails: the fresh segment is appended in
its failed state and the error is surfaced; the index is untouched. -/
theorem set_roll_fail_spec (db : DB) (k v : List Nat) (fl : Nat) (s s' : Segment)
    (er : Err) (hact : db.segments.getLast? = some s)
    (hcw : s.canWrite (createEntry fl k v) = false)
    (hw : (freshSegment ((s.id + 1) % 2 ^ 16)).writeEntry
        (createEntry fl k v) = (some er, s')) :
    db.set k v fl = (.error er,
      { db with segments := db.segments ++ [s'] }) := by
  unfold DB.set DB.activeSegment DB.createSegment
  rw [hact]
  dsimp only
  rw [hcw]
  simp only [Bool.not_false, if_true]
  simp only [List.length_append, List.length_singleton, Nat.add_sub_cancel]
  rw [List.getD_eq_getElem?_getD, List.getElem?_concat_length]
  simp only [Option.getD_some]
  rw [hw]
  dsimp only
  rw [set_concat_last]

theorem capValue_length : capValue.length = 2 ^ 30 - 6 :=
  List.length_replicate _ _

theorem capValue_max : capValue.length ≤ MaxValueSize := by
  rw [capValue_length]
  norm_num [MaxValueSize, SegmentSize, SegmentHeaderSize]

theorem cap_entry_size : (createEntry 1 [1] capValue).size = 2 ^ 30 + 5 := by
  rw [createEntry_entrySize 1 [1] capValue (by norm_num) capValue_max,
    capValue_length]
  norm_num [hdrSize]

/-- Not even a fresh segment can hold the `capValue` entry. -/
theorem freshSegment_cannot_write_cap (i : Nat) :
    (freshSegment i).canWrite (createEntry 1 [1] capValue) = false := by
  unfold Segment.canWrite
  rw [cap_entry_size, show (freshSegment i).size = SegmentHeaderSize from rfl]
  norm_num [SegmentSize, SegmentHeaderSize]

/-- On a fresh database, putting the oversized (yet `MaxValueSize`-legal)
`capValue` rolls over to a new segment and still fails with
`ErrSegmentNotWritable`: this `Put` does not succeed. -/
theorem put_cap_fails :
    db0.put [1] capValue = (.error .segmentNotWritable,
      ⟨[freshSegment 0, freshSegment ((0 % 2 ^ 16 + 1) % 2 ^ 16)],
        fun _ => none, false⟩) := by
  rw [put_eq_set db0 [1] capValue (by decide)
    (by rw [capValue_length]
        norm_num [MaxValueSize, SegmentSize, SegmentHeaderSize])]
  rw [set_roll_fail_spec db0 [1] capValue 1 (freshSegment 0)
    (freshSegment ((0 % 2 ^ 16 + 1) % 2 ^ 16)) .segmentNotWritable rfl
    (freshSegment_cannot_write_cap 0)
    (writeEntry_cannot _ _
      (freshSegment_cannot_write_cap ((0 % 2 ^ 16 + 1) % 2 ^ 16)))]
  rfl

/-- The slice-based recovery scan of the mmap-go segment draft panics (an
out-of-range slice) on a mapped file of 20 bytes: after the 6-byte header,
14 bytes remain — fewer than its 16-byte entry header. -/
theorem segOpen005_oor : segOpen005 20 freshData = .oor := by decide

/-- A successful recovery scan is exactly a chain of valid entries: it stops
either at the mapped length or at the first invalid flag, and returns that
stopping offset. -/
theorem scanLoop_ok_chain (len : Nat) (d : Nat → Nat) :
    ∀ fuel size size', scanLoop len d fuel size = .ok size' →
      ScanChain len d size size' := by
  intro fuel
  induction fuel with
  | zero =>
    intro size size' h
    rw [show scanLoop len d 0 size = .fuelOut from rfl] at h
    cases h
  | succ n ih =>
    intro size size' h
    unfold scanLoop at h
    by_cases h1 : size ≥ len
    · rw [if_pos h1] at h
      cases h
      exact ScanChain.stop_space size h1
    · rw [if_neg h1] at h
      by_cases h2 : size + hdrSize > len
      · rw [if_pos h2] at h
        cases h
      · rw [if_neg h2] at h
        dsimp only at h
        by_cases h3 : ¬ flagIsEntryValid (Hdr.getFlag ⟨readBytes d size hdrSize⟩)
        · rw [if_pos h3] at h
          cases h
          exact ScanChain.stop_flag size (by omega) (by omega) h3
        · rw [if_neg h3] at h
          push_neg at h3
          exact ScanChain.step size size' (by omega) (by omega) h3 (ih _ _ h)

/-- A bad magic fails `segment.Open` with `ErrInvalidSegment`. -/
theorem segOpen_magic (id : Nat) (f : MFile)
    (hlen : SegmentHeaderSize ≤ f.len)
    (h : (readBytes f.data 0 SegmentHeaderSize).take 5 ≠ segMagicBytes.take 5) :
    segOpen id f = .error .invalidSegment := by
  unfold segOpen
  rw [if_neg (by omega)]
  dsimp only
  rw [if_pos h]

/-- A good magic with a version byte other than 1 fails `segment.Open` with
`ErrInvalidSegmentVersion`. -/
theorem segOpen_version (id : Nat) (f : MFile)
    (hlen : SegmentHeaderSize ≤ f.len)
    (h1 : (readBytes f.data 0 SegmentHeaderSize).take 5 = segMagicBytes.take 5)
    (h2 : (readBytes f.data 0 SegmentHeaderSize).getD 5 0 ≠ 1) :
    segOpen id f = .error .invalidSegmentVersion := by
  unfold segOpen
  rw [if_neg (by omega)]
  dsimp only
  rw [if_neg (by simp [h1])]
  rw [if_pos h2]

/-- Everything a successful `segment.Open` establishes: the requested id, the
original mapping, the cursor seeked to the recovered size, and the recovered
size reached by scanning a chain of valid entries from offset 6. -/
theorem segOpen_ok_inv (id : Nat) (f : MFile) (s : Segment)
    (h : segOpen id f = .ok s) :
    s.id = id ∧ s.mfile.len = f.len ∧ s.mfile.data = f.data ∧
      s.mfile.c = s.size ∧ ScanChain f.len f.data SegmentHeaderSize s.size := by
  unfold segOpen at h
  by_cases h0 : SegmentHeaderSize > f.len
  · rw [if_pos h0] at h
    cases h
  rw [if_neg h0] at h
  dsimp only at h
  by_cases h1 : (readBytes f.data 0 SegmentHeaderSize).take 5 ≠ segMagicBytes.take 5
  · rw [if_pos h1] at h
    cases h
  rw [if_neg h1] at h
  by_cases h2 : (readBytes f.data 0 SegmentHeaderSize).getD 5 0 ≠ 1
  · rw [if_pos h2] at h
    cases h
  rw [if_neg h2] at h
  cases hscan : scanLoop f.len f.data f.len SegmentHeaderSize with
  | ok sz =>
    rw [hscan] at h
    dsimp only at h
    cases h
    refine ⟨rfl, rfl, rfl, rfl, ?_⟩
    exact scanLoop_ok_chain f.len f.data f.len SegmentHeaderSize sz hscan
  | err e =>
    rw [hscan] at h
    dsimp only at h
    cases h
  | oor =>
    rw [hscan] at h
    dsimp only at h
    cases h
  | fuelOut =>
    rw [hscan] at h
    dsimp only at h
    cases h

/-- Reading a range that avoids the flipped byte sees the base store. -/
theorem readBytes_flip_out (d : Nat → Nat) (p j off n : Nat)
    (h : p < off ∨ off + n ≤ p) :
    readBytes (fun x => if x = p then d x ^^^ 2 ^ j else d x) off n =
      readBytes d off n := by
  unfold readBytes
  apply List.map_congr_left
  intro i hi
  have hi' : i < n := by simpa using hi
  dsimp only
  rw [if_neg (by omega)]

/-- Reading a range containing the flipped byte sees the base bytes with the
corresponding element flipped. -/
theorem readBytes_flip_at (d : Nat → Nat) (j off n i : Nat) (hi : i < n) :
    readBytes (fun x => if x = off + i then d x ^^^ 2 ^ j else d x) off n =
      (readBytes d off n).set i (d (off + i) ^^^ 2 ^ j) := by
  apply List.ext_getElem
  · simp [readBytes]
  intro m h1 h2
  rw [List.getElem_set]
  unfold readBytes
  rw [List.getElem_map, List.getElem_range]
  dsimp only
  by_cases hm : i = m
  · subst hm
    rw [if_pos rfl, if_pos rfl]
  · rw [if_neg (by omega), if_neg hm, List.getElem_map, List.getElem_range]

/-- Reading back a written entry whose value byte `i` had bit `j` flipped on
disk: the header and key come back intact, the value comes back with exactly
that byte changed. -/
theorem readEntry_written_flip (s : Segment) (d : Nat → Nat) (off : Nat)
    (fl : Nat) (k v : List Nat) (i j : Nat)
    (hdata : s.mfile.data = fun x =>
      if x = off + hdrSize + k.length + i
      then writeList d off ((createEntry fl k v).hdr.bytes ++ k ++ v) x ^^^ 2 ^ j
      else writeList d off ((createEntry fl k v).hdr.bytes ++ k ++ v) x)
    (hoff : off < s.size) (hi : i < v.length)
    (hk2 : k.length ≤ 255) (hv32 : v.length < 2 ^ 32)
    (hfl : fl = 1 ∨ fl = 2)
    (hfit : off + hdrSize + k.length + v.length ≤ s.mfile.len)
    (h4 : s.mfile.len < 2 ^ 32) :
    s.readEntry off =
      .ok ⟨k, v.set i (v.getD i 0 ^^^ 2 ^ j), (createEntry fl k v).hdr⟩ := by
  have hbl : (createEntry fl k v).hdr.bytes.length = hdrSize :=
    createEntry_hdr_bytes_length fl k v
  have heta : (⟨(createEntry fl k v).hdr.bytes⟩ : Hdr) = (createEntry fl k v).hdr :=
    rfl
  have hgf : Hdr.getFlag ⟨(createEntry fl k v).hdr.bytes⟩ = fl := by
    rw [heta, createEntry_getFlag, Nat.mod_eq_of_lt (by omega)]
  have hks : Hdr.getKeySize ⟨(createEntry fl k v).hdr.bytes⟩ = k.length := by
    rw [heta, createEntry_getKeySize, Nat.mod_eq_of_lt (by omega)]
  have hvs : Hdr.getValueSize ⟨(createEntry fl k v).hdr.bytes⟩ = v.length := by
    rw [heta]
    exact createEntry_getValueSize fl k v hv32
  have hH : readBytes s.mfile.data off hdrSize = (createEntry fl k v).hdr.bytes := by
    rw [hdata, readBytes_flip_out _ _ _ _ _ (Or.inr (by omega))]
    have hre : (createEntry fl k v).hdr.bytes ++ k ++ v =
        (createEntry fl k v).hdr.bytes ++ (k ++ v) := by
      simp [List.append_assoc]
    rw [hre, ← hbl]
    exact readBytes_writeList_first d off _ _
  have hK : readBytes s.mfile.data (off + hdrSize) k.length = k := by
    rw [hdata, readBytes_flip_out _ _ _ _ _ (Or.inr (by omega))]
    rw [← hbl]
    exact readBytes_writeList_middle d off _ k v
  have hVbase : readBytes (writeList d off ((createEntry fl k v).hdr.bytes ++ k ++ v))
      (off + hdrSize + k.length) v.length = v := by
    have hlen2 : ((createEntry fl k v).hdr.bytes ++ k).length =
        hdrSize + k.length := by
      simp only [List.length_append, hbl]
    have h0 := readBytes_writeList_middle d off
      ((createEntry fl k v).hdr.bytes ++ k) v []
    rw [List.append_nil, hlen2, ← Nat.add_assoc] at h0
    exact h0
  have hV : readBytes s.mfile.data (off + hdrSize + k.length) v.length =
      v.set i (v.getD i 0 ^^^ 2 ^ j) := by
    rw [hdata]
    rw [readBytes_flip_at _ _ _ _ _ hi]
    rw [hVbase]
    have hbp : writeList d off ((createEntry fl k v).hdr.bytes ++ k ++ v)
        (off + hdrSize + k.length + i) = v.getD i 0 := by
      have h0 := readBytes_getD
        (writeList d off ((createEntry fl k v).hdr.bytes ++ k ++ v))
        (off + hdrSize + k.length) v.length i hi
      rw [hVbase] at h0
      exact h0.symm
    rw [hbp]
  have := readEntry_reads s off (createEntry fl k v).hdr.bytes hoff hH
    (by rw [hgf]; rcases hfl with h | h <;> simp [h, flagIsEntryValid])
    (by omega) (by rw [hks]; omega) (by rw [hks, hvs]; omega) h4
  rw [this, hks, hvs, hK, hV, heta]

/-- Verifying an entry whose value was flipped at one bit fails with the
checksum error: the CRC stored in the header no longer matches. -/
theorem verify_flipped (fl : Nat) (k v : List Nat) (i j : Nat)
    (hv32 : v.length < 2 ^ 32) (hvb : IsBytes v) (hi : i < v.length)
    (hj : j < 32) :
    Entry.verify ⟨k, v.set i (v.getD i 0 ^^^ 2 ^ j), (createEntry fl k v).hdr⟩ k =
      some .checksumFailed := by
  unfold Entry.verify
  rw [if_neg]
  · rw [if_neg (by simp)]
    rw [if_pos]
    simp only [createEntry_getChecksum fl k v (crc32c_lt v hvb)]
    exact (crc32c_flip_ne v i j hi hj).symm
  · simp only [createEntry_getKeySize, createEntry_getValueSize fl k v hv32,
      List.length_set]
    push_neg
    exact ⟨rfl, (Nat.mod_eq_of_lt hv32).symm⟩

/-- `Put(k, v)` on the freshly opened database writes the entry at offset 6
of segment 0 and indexes it there. -/
theorem db0_put_spec (k v : List Nat) (hk : validateKey k = none)
    (hk255 : k.length ≤ 255) (hv : v.length ≤ MaxValueSize)
    (hfit : SegmentHeaderSize + (hdrSize + k.length + max v.length 1) ≤
      SegmentSize) :
    db0.put k v = (.ok (), putDB k v) := by
  have hes := createEntry_entrySize 1 k v hk255 hv
  have hvm : v.length ≤ max v.length 1 := Nat.le_max_left _ _
  have hSS : SegmentSize = 2 ^ 30 := rfl
  have hcw : (freshSegment 0).canWrite (createEntry 1 k v) = true := by
    unfold Segment.canWrite
    rw [hes, show (freshSegment 0).size = SegmentHeaderSize from rfl,
      decide_eq_true_eq, Nat.mod_eq_of_lt (by omega)]
    omega
  have hw : (db0.segments.getD (db0.segments.length - 1)
      (freshSegment 0)).writeEntry (createEntry 1 k v) = (none, putSeg k v) := by
    rw [show db0.segments.getD (db0.segments.length - 1) (freshSegment 0) =
      freshSegment 0 from rfl]
    rw [writeEntry_fits (freshSegment 0) 1 k v rfl rfl hk255 hv hfit]
    rfl
  rw [put_eq_set db0 k v hk (by omega)]
  rw [set_stay_spec db0 k v 1 (freshSegment 0) (putSeg k v) rfl hcw hw]
  rw [Prod.mk.injEq]
  refine ⟨rfl, ?_⟩
  unfold putDB
  rw [DB.mk.injEq]
  refine ⟨rfl, ?_, rfl⟩
  funext kk
  by_cases hkk : kk = k
  · subst hkk
    rw [if_pos rfl, if_pos rfl]
    rw [hes]
    rw [show (putSeg kk v).id = 0 % 2 ^ 16 from rfl,
      show (putSeg kk v).size = SegmentHeaderSize + hdrSize + kk.length + v.length
        from rfl]
    rw [show SegmentHeaderSize + hdrSize + kk.length + v.length -
      (hdrSize + kk.length + v.length) = SegmentHeaderSize from by omega]
  · rw [if_neg hkk, if_neg hkk]
    rfl

/-- Flipping a bit of segment 0 of the one-put database changes exactly the
mapped bytes of that segment. -/
theorem corruptBit_putDB (k v : List Nat) (p j : Nat) :
    corruptBit (putDB k v) 0 p j =
      ⟨[{ putSeg k v with
          mfile := { (putSeg k v).mfile with
            data := fun x => if x = p then (putSeg k v).mfile.data x ^^^ 2 ^ j
              else (putSeg k v).mfile.data x } }],
        fun kk => if kk = k then some ⟨0 % 2 ^ 16, SegmentHeaderSize⟩ else none,
        false⟩ := by
  unfold corruptBit
  rw [show (putDB k v).segments.get? 0 = some (putSeg k v) from rfl]
  dsimp only
  rfl

/-- Flipping any single bit of the stored value bytes on disk makes the next
`Get` of that key fail with `ErrChecksumFailed`. -/
theorem corrupt_get_checksum (k v : List Nat) (i j : Nat)
    (hk : validateKey k = none) (hk255 : k.length ≤ 255)
    (hvb : IsBytes v) (hvmax : v.length ≤ MaxValueSize)
    (hfit : SegmentHeaderSize + (hdrSize + k.length + max v.length 1) ≤
      SegmentSize)
    (hi : i < v.length) (hj : j < 32) :
    (corruptBit (putDB k v) 0 (SegmentHeaderSize + hdrSize + k.length + i)
      j).get k = .error .checksumFailed := by
  have hMV : MaxValueSize = 2 ^ 30 - 6 := rfl
  have h10 : hdrSize = 10 := rfl
  have hSS : SegmentSize = 2 ^ 30 := rfl
  have hvm : v.length ≤ max v.length 1 := Nat.le_max_left _ _
  have hv32 : v.length < 2 ^ 32 := by omega
  rw [corruptBit_putDB]
  apply get_eval_verify _ k ⟨0 % 2 ^ 16, SegmentHeaderSize⟩
    ({ putSeg k v with
        mfile := { (putSeg k v).mfile with
          data := fun x =>
            if x = SegmentHeaderSize + hdrSize + k.length + i
            then (putSeg k v).mfile.data x ^^^ 2 ^ j
            else (putSeg k v).mfile.data x } })
    ⟨k, v.set i (v.getD i 0 ^^^ 2 ^ j), (createEntry 1 k v).hdr⟩ .checksumFailed
    hk
  · dsimp only
    rw [if_pos rfl]
  · rfl
  · apply readEntry_written_flip _ freshData SegmentHeaderSize 1 k v i j
    · dsimp only
      rw [show (putSeg k v).mfile.data =
        writeList freshData SegmentHeaderSize
          ((createEntry 1 k v).hdr.bytes ++ k ++ v) from rfl]
    · rw [show ({ putSeg k v with
          mfile := { (putSeg k v).mfile with
            data := fun x =>
              if x = SegmentHeaderSize + hdrSize + k.length + i
              then (putSeg k v).mfile.data x ^^^ 2 ^ j
              else (putSeg k v).mfile.data x } } : Segment).size =
        SegmentHeaderSize + hdrSize + k.length + v.length from rfl]
      omega
    · exact hi
    · exact hk255
    · exact hv32
    · exact Or.inl rfl
    · rw [show ({ putSeg k v with
          mfile := { (putSeg k v).mfile with
            data := fun x =>
              if x = SegmentHeaderSize + hdrSize + k.length + i
              then (putSeg k v).mfile.data x ^^^ 2 ^ j
              else (putSeg k v).mfile.data x } } : Segment).mfile.len =
        SegmentSize from rfl]
      omega
    · rw [show ({ putSeg k v with
          mfile := { (putSeg k v).mfile with
            data := fun x =>
              if x = SegmentHeaderSize + hdrSize + k.length + i
              then (putSeg k v).mfile.data x ^^^ 2 ^ j
              else (putSeg k v).mfile.data x } } : Segment).mfile.len =
        SegmentSize from rfl]
      omega
  · exact verify_flipped 1 k v i j hv32 hvb hi hj

/-- Rollover, in full: when the active segment rejects an entry that fits a
fresh segment, `Put` succeeds, appends a segment whose id is the previous id
plus one in uint16 arithmetic, indexes the entry there, leaves every previous
segment untouched, and the new entry reads back from offset 6 of the new
segment. -/
theorem put_rollover_spec (db : DB) (k v : List Nat) (s : Segment)
    (hact : db.segments.getLast? = some s)
    (hk : validateKey k = none) (hk255 : k.length ≤ 255)
    (hv : v.length ≤ MaxValueSize)
    (hcw : s.canWrite (createEntry 1 k v) = false)
    (hfit : SegmentHeaderSize + (hdrSize + k.length + max v.length 1) ≤
      SegmentSize) :
    ∃ s', db.put k v = (.ok (),
        { db with
          segments := db.segments ++ [s']
          index := fun kk => if kk = k then
              some ⟨s'.id, s'.size - (createEntry 1 k v).size⟩
            else db.index kk }) ∧
      s'.id = (s.id + 1) % 2 ^ 16 ∧
      s'.size = SegmentHeaderSize + hdrSize + k.length + v.length ∧
      (∀ n, n < db.segments.length →
        (db.segments ++ [s']).get? n = db.segments.get? n) ∧
      s'.readEntry SegmentHeaderSize = .ok ⟨k, v, (createEntry 1 k v).hdr⟩ := by
  have hMV : MaxValueSize = 2 ^ 30 - 6 := rfl
  have hSS : SegmentSize = 2 ^ 30 := rfl
  have h10 : hdrSize = 10 := rfl
  have h6 : SegmentHeaderSize = 6 := rfl
  have hvm : v.length ≤ max v.length 1 := Nat.le_max_left _ _
  have hwf : (freshSegment ((s.id + 1) % 2 ^ 16)).writeEntry (createEntry 1 k v) =
      (none, rollSeg ((s.id + 1) % 2 ^ 16) k v) := by
    rw [writeEntry_fits (freshSegment ((s.id + 1) % 2 ^ 16)) 1 k v rfl rfl
      hk255 hv hfit]
    rfl
  refine ⟨rollSeg ((s.id + 1) % 2 ^ 16) k v, ?_, ?_, ?_, ?_, ?_⟩
  · rw [put_eq_set db k v hk (by omega)]
    exact set_roll_spec db k v 1 s _ hact hcw hwf
  · show ((s.id + 1) % 2 ^ 16) % 2 ^ 16 = (s.id + 1) % 2 ^ 16
    omega
  · rfl
  · intro n hn
    rw [List.get?_eq_getElem?, List.get?_eq_getElem?, List.getElem?_append,
      if_pos hn]
  · apply readEntry_written _ freshData SegmentHeaderSize 1 k v []
    · rw [List.append_nil]
      rfl
    · show SegmentHeaderSize <
        SegmentHeaderSize + hdrSize + k.length + v.length
      omega
    · exact hk255
    · omega
    · exact Or.inl rfl
    · show SegmentHeaderSize + hdrSize + k.length + v.length ≤ SegmentSize
      omega
    · show SegmentSize < 2 ^ 32
      omega

/-- Character order transfers to code points. -/
theorem char_toNat_le (a b : Char) (h : a ≤ b) : a.toNat ≤ b.toNat :=
  Char.le_def.mp h

/-- A hexadecimal digit value is below 16. -/
theorem hexDigitVal_lt (c : Char) (d : Nat) (h : hexDigitVal c = some d) :
    d < 16 := by
  unfold hexDigitVal at h
  split_ifs at h with h1 h2 h3
  · injection h with h'
    have hle := char_toNat_le c '9' h1.2
    have h9 : ('9' : Char).toNat = 57 := rfl
    have h0 : ('0' : Char).toNat = 48 := rfl
    omega
  · injection h with h'
    have hle := char_toNat_le c 'f' h2.2
    have hf : ('f' : Char).toNat = 102 := rfl
    have ha : ('a' : Char).toNat = 97 := rfl
    omega
  · injection h with h'
    have hle := char_toNat_le c 'F' h3.2
    have hF : ('F' : Char).toNat = 70 := rfl
    have hA : ('A' : Char).toNat = 65 := rfl
    omega

/-- `ParseUint` accumulation: over a string of hex digits, starting from an
accumulator small enough that the final value stays below 2^32, every step
passes the cutoff check and the fold succeeds with a bounded value. -/
theorem foldl_parseUintStep_some (l : List Char) :
    ∀ n : Nat, (∀ c ∈ l, (hexDigitVal c).isSome) →
      (n + 1) * 16 ^ l.length ≤ 2 ^ 32 →
      ∃ m, l.foldl parseUintStep (some n) = some m ∧
        m < (n + 1) * 16 ^ l.length := by
  induction l with
  | nil =>
    intro n _ _
    exact ⟨n, rfl, by simp⟩
  | cons c t ih =>
    intro n hall hbound
    simp only [List.length_cons] at hbound
    have hpow : (16 : Nat) ≤ 16 ^ (t.length + 1) := by
      calc (16 : Nat) = 16 ^ 1 := by norm_num
        _ ≤ 16 ^ (t.length + 1) := Nat.pow_le_pow_right (by norm_num) (by omega)
    have hstep16 : (n + 1) * 16 ≤ (n + 1) * 16 ^ (t.length + 1) :=
      Nat.mul_le_mul_left _ hpow
    obtain ⟨d, hd⟩ := Option.isSome_iff_exists.mp (hall c (by simp))
    have hd16 : d < 16 := hexDigitVal_lt c d hd
    have hstep : parseUintStep (some n) c = some (n * 16 + d) := by
      unfold parseUintStep
      dsimp only [Option.bind]
      rw [hd]
      dsimp only
      rw [if_neg (by omega)]
    rw [List.foldl_cons, hstep]
    have hmul : (n * 16 + d + 1) * 16 ^ t.length ≤
        (n + 1) * 16 ^ (t.length + 1) := by
      calc (n * 16 + d + 1) * 16 ^ t.length ≤ ((n + 1) * 16) * 16 ^ t.length :=
          Nat.mul_le_mul_right _ (by omega)
        _ = (n + 1) * 16 ^ (t.length + 1) := by ring
    obtain ⟨m, hm, hmb⟩ := ih (n * 16 + d)
      (fun c2 hc2 => hall c2 (by simp [hc2])) (by omega)
    refine ⟨m, hm, ?_⟩
    simp only [List.length_cons]
    omega

/-- Every name of exactly four lowercase hexadecimal digits is accepted by
`parseSegmentFilename`. -/
theorem fourDigit_parses (s : List Char) (h : specFourDigitHexName s) :
    (parseSegmentFilename s).isSome := by
  obtain ⟨hlen, hall⟩ := h
  have hne : s ≠ [] := by
    intro he
    rw [he] at hlen
    cases hlen
  have hhex : ∀ c ∈ s, (hexDigitVal c).isSome := by
    intro c hc
    rcases hall c hc with h1 | h2
    · unfold hexDigitVal
      rw [if_pos h1]
      rfl
    · unfold hexDigitVal
      rw [if_neg (fun hcon => absurd (le_trans h2.1 hcon.2) (by decide)),
        if_pos h2]
      rfl
  obtain ⟨m, hm, _⟩ := foldl_parseUintStep_some s 0 hhex
    (by rw [hlen]; norm_num)
  unfold parseSegmentFilename parseUint16_32
  rw [if_neg hne, hm]
  rfl

/-! ### The claims -/

/-- C1: the spec claims that after `Delete(k)`, `Get(k)` returns the
`KeyDeleted` error and no value.  In the code, `Get` never inspects the entry
flag: after `Put("foo","bar")` and a successful `Delete("foo")`, `Get("foo")`
returns the tombstone's empty value with a nil error instead of
`ErrKeyDeleted`. -/
theorem C1_get_after_delete_not_keyDeleted :
    ((db0.put [102, 111, 111] [98, 97, 114]).2.delete [102, 111, 111]).1 =
      .ok () ∧
    ((((db0.put [102, 111, 111] [98, 97, 114]).2.delete
      [102, 111, 111]).2.get [102, 111, 111]) = .ok []) ∧
    ((((db0.put [102, 111, 111] [98, 97, 114]).2.delete
      [102, 111, 111]).2.get [102, 111, 111]) ≠ .error .keyDeleted) := by
  refine ⟨by decide, by decide, by decide⟩

/-- C2: the spec claims `Delete(k)` appends a tombstone and updates the
index.  `db.go`'s `Delete` validates the key and then returns nil without
writing anything: the database comes back unchanged for every valid key. -/
theorem C2_delete_writes_nothing (db : DB) (k : List Nat)
    (h : validateKey k = none) : DBGo.delete db k = (.ok (), db) := by
  unfold DBGo.delete
  rw [h]

/-- Witness for C2 at the key `"foo"` on the fresh database. -/
theorem C2_delete_writes_nothing_witness :
    validateKey [102, 111, 111] = none ∧
    DBGo.delete db0 [102, 111, 111] = (.ok (), db0) :=
  ⟨by decide, C2_delete_writes_nothing db0 [102, 111, 111] (by decide)⟩

/-- C3 (amended): for every valid key and byte value, if `Put(k, v)` is the
last successful put for `k`, the next `Get(k)` returns exactly `v` — provided
the database holds at most 2^16 segments.  Beyond that the uint16 segment id
wraps around and `Get` resolves the index to a stale segment
(`C3_counterexample`). -/
theorem C3_round_trip (db db' : DB) (k v : List Nat) (hinv : DBInv db)
    (hput : db.put k v = (.ok (), db')) (hv : IsBytes v)
    (hlen : db'.segments.length ≤ 2 ^ 16) : db'.get k = .ok v :=
  get_after_put db db' k v hinv hput hv hlen

/-- Witness for C3: put `[1] ↦ [2]` on the fresh database and read it back. -/
theorem C3_round_trip_witness :
    DBInv db0 ∧ IsBytes [2] ∧ db0.put [1] [2] = (.ok (), putDB [1] [2]) ∧
    (putDB [1] [2]).segments.length ≤ 2 ^ 16 ∧
    (putDB [1] [2]).get [1] = .ok [2] :=
  have hput : db0.put [1] [2] = (.ok (), putDB [1] [2]) :=
    db0_put_spec [1] [2] (by decide) (by decide) (by decide) (by decide)
  ⟨DBInv_db0, by decide, hput, by decide,
   C3_round_trip db0 (putDB [1] [2]) [1] [2] DBInv_db0 hput (by decide)
     (by decide)⟩

/-- Counterexample for C3 as stated: 65536 wrap-around puts exhaust the
uint16 segment-id space; then `Put("foo","bar")` succeeds, yet the next
`Get("foo")` reads the first full segment (stale id 0) and fails with a key
mismatch instead of returning `"bar"`. -/
theorem C3_counterexample :
    applyPuts (wrapOps (2 ^ 16)) db0 = (wrapDB (2 ^ 16), true) ∧
    (wrapDB (2 ^ 16)).put [102, 111, 111] [98, 97, 114] = (.ok (), badDB) ∧
    badDB.get [102, 111, 111] = .error .keyMismatch :=
  ⟨applyPuts_wrap (2 ^ 16) (by norm_num) (by norm_num), put_foo_wrapFull,
    badDB_get_foo⟩

/-- C4: `segment.Open` fails with `InvalidSegment` on a bad magic and with
`InvalidSegmentVersion` on a version byte other than 1; when it succeeds, it
keeps the requested id and mapping, seeks the cursor to the recovered size,
and that size is reached by scanning valid entries forward from offset 6
until an invalid flag or the end of the space (`ScanChain`). -/
theorem C4_open_verifies_and_scans (id : Nat) (f : MFile)
    (hlen : SegmentHeaderSize ≤ f.len) :
    ((readBytes f.data 0 SegmentHeaderSize).take 5 ≠ segMagicBytes.take 5 →
      segOpen id f = .error .invalidSegment) ∧
    ((readBytes f.data 0 SegmentHeaderSize).take 5 = segMagicBytes.take 5 →
      (readBytes f.data 0 SegmentHeaderSize).getD 5 0 ≠ 1 →
      segOpen id f = .error .invalidSegmentVersion) ∧
    (∀ s, segOpen id f = .ok s →
      s.id = id ∧ s.mfile.len = f.len ∧ s.mfile.data = f.data ∧
        s.mfile.c = s.size ∧ ScanChain f.len f.data SegmentHeaderSize s.size) :=
  ⟨segOpen_magic id f hlen,
   fun h1 h2 => segOpen_version id f hlen h1 h2,
   fun s h => segOpen_ok_inv id f s h⟩

/-- Witness for C4 on the 6-byte fresh file. -/
theorem C4_open_verifies_and_scans_witness :
    SegmentHeaderSize ≤ (⟨6, 0, freshData⟩ : MFile).len ∧
    (((readBytes (⟨6, 0, freshData⟩ : MFile).data 0 SegmentHeaderSize).take 5 ≠
        segMagicBytes.take 5 →
      segOpen 0 ⟨6, 0, freshData⟩ = .error .invalidSegment) ∧
    ((readBytes (⟨6, 0, freshData⟩ : MFile).data 0 SegmentHeaderSize).take 5 =
        segMagicBytes.take 5 →
      (readBytes (⟨6, 0, freshData⟩ : MFile).data 0
        SegmentHeaderSize).getD 5 0 ≠ 1 →
      segOpen 0 ⟨6, 0, freshData⟩ = .error .invalidSegmentVersion) ∧
    (∀ s, segOpen 0 ⟨6, 0, freshData⟩ = .ok s →
      s.id = 0 ∧ s.mfile.len = (⟨6, 0, freshData⟩ : MFile).len ∧
        s.mfile.data = (⟨6, 0, freshData⟩ : MFile).data ∧
        s.mfile.c = s.size ∧
        ScanChain (⟨6, 0, freshData⟩ : MFile).len
          (⟨6, 0, freshData⟩ : MFile).data SegmentHeaderSize s.size)) :=
  ⟨by decide, C4_open_verifies_and_scans 0 ⟨6, 0, freshData⟩ (by decide)⟩

/-- C5 (amended): when the active segment cannot fit the entry, the key is
at most 255 bytes, and a fresh segment can fit the entry, `Put` succeeds: it
appends a segment whose id is the previous id plus one in uint16 arithmetic,
writes the entry there (readable at offset 6), and leaves every earlier
segment unchanged.  Both provisos are forced (`C5_counterexample`): an entry
too big even for a fresh segment makes `Put` fail with
`ErrSegmentNotWritable`, and a valid key of 256-65535 bytes makes the
rollover write fail with `ErrInvalidEntryHeader`, because the header stores
`uint8(len(key))` and the written count disagrees with the truncated key
size; at id 65535 the next id wraps to 0 rather than 65536. -/
theorem C5_rollover (db : DB) (k v : List Nat) (s : Segment)
    (hact : db.segments.getLast? = some s)
    (hk : validateKey k = none) (hk255 : k.length ≤ 255)
    (hv : v.length ≤ MaxValueSize)
    (hcw : s.canWrite (createEntry 1 k v) = false)
    (hfit : SegmentHeaderSize + (hdrSize + k.length + max v.length 1) ≤
      SegmentSize) :
    ∃ s', db.put k v = (.ok (),
        { db with
          segments := db.segments ++ [s']
          index := fun kk => if kk = k then
              some ⟨s'.id, s'.size - (createEntry 1 k v).size⟩
            else db.index kk }) ∧
      s'.id = (s.id + 1) % 2 ^ 16 ∧
      s'.size = SegmentHeaderSize + hdrSize + k.length + v.length ∧
      (∀ n, n < db.segments.length →
        (db.segments ++ [s']).get? n = db.segments.get? n) ∧
      s'.readEntry SegmentHeaderSize = .ok ⟨k, v, (createEntry 1 k v).hdr⟩ :=
  put_rollover_spec db k v s hact hk hk255 hv hcw hfit

/-- Witness for C5: `Put("foo","bar")` on a database whose single segment is
full. -/
theorem C5_rollover_witness :
    (wrapDB 1).segments.getLast? = some (fullSeg 0) ∧
    validateKey [102, 111, 111] = none ∧
    (fullSeg 0).canWrite (createEntry 1 [102, 111, 111] [98, 97, 114]) =
      false ∧
    (∃ s', (wrapDB 1).put [102, 111, 111] [98, 97, 114] = (.ok (),
        { wrapDB 1 with
          segments := (wrapDB 1).segments ++ [s']
          index := fun kk => if kk = [102, 111, 111] then
              some ⟨s'.id,
                s'.size - (createEntry 1 [102, 111, 111] [98, 97, 114]).size⟩
            else (wrapDB 1).index kk }) ∧
      s'.id = ((fullSeg 0).id + 1) % 2 ^ 16 ∧
      s'.size = SegmentHeaderSize + hdrSize + [102, 111, 111].length +
        [98, 97, 114].length ∧
      (∀ n, n < (wrapDB 1).segments.length →
        ((wrapDB 1).segments ++ [s']).get? n = (wrapDB 1).segments.get? n) ∧
      s'.readEntry SegmentHeaderSize =
        .ok ⟨[102, 111, 111], [98, 97, 114],
          (createEntry 1 [102, 111, 111] [98, 97, 114]).hdr⟩) :=
  have hact : (wrapDB 1).segments.getLast? = some (fullSeg 0) := by
    simp only [wrapDB]
    exact wrapDB_getLast 1 (by norm_num)
  ⟨hact, by decide, fullSeg_cannot_write_foo 0,
   C5_rollover (wrapDB 1) [102, 111, 111] [98, 97, 114] (fullSeg 0) hact
     (by decide) (by decide) (by decide) (fullSeg_cannot_write_foo 0)
     (by decide)⟩

set_option maxRecDepth 4000 in
/-- Counterexample for C5 as stated, in two parts.  First, `capValue` passes
every `Put` check and the fresh active segment cannot fit its entry, yet
`Put` fails with `ErrSegmentNotWritable` instead of succeeding.  Second, a
valid 256-byte key on a full active segment satisfies the claim's antecedent,
yet the rollover write fails with `ErrInvalidEntryHeader`: the header stores
`uint8(len(key))`, so the written count check sees 256 against the truncated
key size 0. -/
theorem C5_counterexample :
    validateKey [1] = none ∧ capValue.length ≤ MaxValueSize ∧
    (freshSegment 0).canWrite (createEntry 1 [1] capValue) = false ∧
    (db0.put [1] capValue).1 = .error .segmentNotWritable ∧
    validateKey (List.replicate 256 1) = none ∧
    (fullSeg 0).canWrite (createEntry 1 (List.replicate 256 1) [2]) = false ∧
    ((wrapDB 1).put (List.replicate 256 1) [2]).1 =
      .error .invalidEntryHeader :=
  ⟨by decide, capValue_max, freshSegment_cannot_write_cap 0,
   by rw [put_cap_fails], by decide, by decide, by decide⟩

/-- C6 (amended): the `hdr` codec of `hdr.go` is the claimed fixed 10-byte
little-endian layout, and its getters recover the flag, key length, value
length and checksum that were stored.  The `entry.go` draft, however, encodes
a 16-byte header and rejects any buffer shorter than 16 bytes
(`C6_counterexample`). -/
theorem C6_header_codec (fl : Nat) (k v : List Nat) (e : EntryHeader)
    (b : List Nat) (hv32 : v.length < 2 ^ 32) (hcrc : crc32c v < 2 ^ 32)
    (hb : b.length < EntryHeaderSize) :
    (createEntry fl k v).hdr.bytes.length = hdrSize ∧
    (createEntry fl k v).hdr.getFlag = fl % 256 ∧
    (createEntry fl k v).hdr.getKeySize = k.length % 256 ∧
    (createEntry fl k v).hdr.getValueSize = v.length ∧
    (createEntry fl k v).hdr.getChecksum = crc32c v ∧
    e.encode.length = EntryHeaderSize ∧
    readEntryHeader b = .error .invalidEntryHeader :=
  ⟨createEntry_hdr_bytes_length fl k v, createEntry_getFlag fl k v,
   createEntry_getKeySize fl k v, createEntry_getValueSize fl k v hv32,
   createEntry_getChecksum fl k v hcrc, rfl,
   by unfold readEntryHeader; rw [if_pos hb]⟩

/-- Witness for C6 at a small concrete header and a 10-byte buffer. -/
theorem C6_header_codec_witness :
    [2].length < 2 ^ 32 ∧ crc32c [2] < 2 ^ 32 ∧
    (List.replicate 10 0).length < EntryHeaderSize ∧
    ((createEntry 1 [1] [2]).hdr.bytes.length = hdrSize ∧
      (createEntry 1 [1] [2]).hdr.getFlag = 1 % 256 ∧
      (createEntry 1 [1] [2]).hdr.getKeySize = [1].length % 256 ∧
      (createEntry 1 [1] [2]).hdr.getValueSize = [2].length ∧
      (createEntry 1 [1] [2]).hdr.getChecksum = crc32c [2] ∧
      (⟨0, 0, 0, 0⟩ : EntryHeader).encode.length = EntryHeaderSize ∧
      readEntryHeader (List.replicate 10 0) = .error .invalidEntryHeader) :=
  ⟨by decide, by decide, by decide,
   C6_header_codec 1 [1] [2] ⟨0, 0, 0, 0⟩ (List.replicate 10 0) (by decide)
     (by decide) (by decide)⟩

/-- Counterexample for C6 as stated: the `entry.go` draft's `Encode` emits 16
bytes, not 10, and its decoder rejects a 10-byte buffer, which the claim says
must decode. -/
theorem C6_counterexample :
    (⟨0, 0, 0, 0⟩ : EntryHeader).encode.length = 16 ∧ (16 : Nat) ≠ 10 ∧
    readEntryHeader (List.replicate 10 0) = .error .invalidEntryHeader :=
  ⟨rfl, by decide, by decide⟩

/-- C7: for a stored entry, flipping any single bit of the value bytes on
disk makes the next `Get` of that key fail with `ErrChecksumFailed`: the
CRC32-Castagnoli checksum over the value detects every single-bit
corruption. -/
theorem C7_crc_detects_bit_flips (k v : List Nat) (i j : Nat)
    (hk : validateKey k = none) (hk255 : k.length ≤ 255)
    (hvb : IsBytes v) (hvmax : v.length ≤ MaxValueSize)
    (hfit : SegmentHeaderSize + (hdrSize + k.length + max v.length 1) ≤
      SegmentSize)
    (hi : i < v.length) (hj : j < 8) :
    db0.put k v = (.ok (), putDB k v) ∧
    (corruptBit (putDB k v) 0 (SegmentHeaderSize + hdrSize + k.length + i)
      j).get k = .error .checksumFailed :=
  ⟨db0_put_spec k v hk hk255 hvmax hfit,
   corrupt_get_checksum k v i j hk hk255 hvb hvmax hfit hi (by omega)⟩

/-- Witness for C7: flip bit 0 of the only value byte of `[1] ↦ [2]`. -/
theorem C7_crc_detects_bit_flips_witness :
    validateKey [1] = none ∧ IsBytes [2] ∧ (0 : Nat) < [2].length ∧
    (db0.put [1] [2] = (.ok (), putDB [1] [2]) ∧
      (corruptBit (putDB [1] [2]) 0
        (SegmentHeaderSize + hdrSize + [1].length + 0) 0).get [1] =
        .error .checksumFailed) :=
  ⟨by decide, by decide, by decide,
   C7_crc_detects_bit_flips [1] [2] 0 0 (by decide) (by decide) (by decide)
     (by decide) (by decide) (by decide) (by decide)⟩

/-- C8: `Put` validates before writing — empty key gives `EmptyKey`, a key
over `MaxKeySize` gives `KeyTooLarge`, a value over `MaxValueSize` gives
`ValueTooLarge` — and in each case the database (segments and index) is
returned unchanged. -/
theorem C8_put_validation (db : DB) (k v : List Nat) :
    (k.length = 0 → db.put k v = (.error .emptyKey, db)) ∧
    (k.length > MaxKeySize → db.put k v = (.error .keyTooLarge, db)) ∧
    (k.length ≠ 0 → ¬ k.length > MaxKeySize → v.length > MaxValueSize →
      db.put k v = (.error .valueTooLarge, db)) := by
  refine ⟨?_, ?_, ?_⟩
  · intro h
    unfold DB.put validateKey
    rw [if_pos h]
  · intro h
    have hMK : MaxKeySize = 65535 := rfl
    unfold DB.put validateKey
    rw [if_neg (by omega), if_pos h]
  · intro h1 h2 h3
    unfold DB.put validateKey
    rw [if_neg h1, if_neg h2]
    dsimp only
    rw [if_pos h3]

/-- Witness for C8 at the three concrete offending inputs. -/
theorem C8_put_validation_witness :
    db0.put [] [42] = (.error .emptyKey, db0) ∧
    db0.put (List.replicate 65536 1) [42] = (.error .keyTooLarge, db0) ∧
    db0.put [1] (List.replicate (2 ^ 30 - 5) 0) =
      (.error .valueTooLarge, db0) :=
  ⟨(C8_put_validation db0 [] [42]).1 rfl,
   (C8_put_validation db0 (List.replicate 65536 1) [42]).2.1
     (by rw [List.length_replicate]; norm_num [MaxKeySize]),
   (C8_put_validation db0 [1] (List.replicate (2 ^ 30 - 5) 0)).2.2
     (by norm_num) (by norm_num [MaxKeySize])
     (by rw [List.length_replicate]
         norm_num [MaxValueSize, SegmentSize, SegmentHeaderSize])⟩

/-- C9 (amended): `openSegments` opens exactly the directory entries whose
names `parseSegmentFilename` accepts and silently skips the rest; every
4-digit lowercase hexadecimal name is accepted.  The filter is however wider
than the claimed 4-digit scheme: any hexadecimal string below 2^32 parses,
e.g. `"ff"` (`C9_counterexample`). -/
theorem C9_filename_filter (names : List (List Char)) (s : List Char) :
    (s ∈ openSegmentsSelect names ↔
      s ∈ names ∧ (parseSegmentFilename s).isSome) ∧
    (specFourDigitHexName s → (parseSegmentFilename s).isSome) := by
  constructor
  · unfold openSegmentsSelect
    rw [List.mem_filter]
  · exact fourDigit_parses s

/-- Witness for C9 at the name `"0000"` in a directory with a stray file. -/
theorem C9_filename_filter_witness :
    specFourDigitHexName ['0', '0', '0', '0'] ∧
    (parseSegmentFilename ['0', '0', '0', '0']).isSome ∧
    (['0', '0', '0', '0'] ∈
        openSegmentsSelect [['0', '0', '0', '0'], ['x']] ↔
      ['0', '0', '0', '0'] ∈ [['0', '0', '0', '0'], ['x']] ∧
        (parseSegmentFilename ['0', '0', '0', '0']).isSome) :=
  ⟨by decide,
   (C9_filename_filter [['0', '0', '0', '0'], ['x']] ['0', '0', '0', '0']).2
     (by decide),
   (C9_filename_filter [['0', '0', '0', '0'], ['x']] ['0', '0', '0', '0']).1⟩

/-- Counterexample for C9 as stated: `"ff"` is not a 4-digit name, yet it
parses (to id 255) and is opened as a segment rather than skipped. -/
theorem C9_counterexample :
    parseSegmentFilename ['f', 'f'] = some 255 ∧
    ¬ specFourDigitHexName ['f', 'f'] ∧
    openSegmentsSelect [['f', 'f']] = [['f', 'f']] := by
  refine ⟨by decide, by decide, by decide⟩

/-- C10 (amended): the recovery scan of the mmap.File segment draft
(part_006) accesses only mapped bytes — it never indexes out of range, and
when fewer than one full header remains before the end it stops with the
`ReadOff` error `ErrInvalidOffset`.  The mmap-go draft (part_005) instead
slices `data[size : size+16]` unguarded and panics on such a tail
(`C10_counterexample`). -/
theorem C10_scan_bounds (len : Nat) (d : Nat → Nat) (fuel size : Nat) :
    scanLoop len d fuel size ≠ .oor ∧
    (size < len → size + hdrSize > len → 0 < fuel →
      scanLoop len d fuel size = .err .invalidOffset) := by
  constructor
  · exact scanLoop_no_oor len d fuel size
  · intro h1 h2 hf
    cases fuel with
    | zero => omega
    | succ n =>
      show scanLoop len d (n + 1) size = .err .invalidOffset
      unfold scanLoop
      rw [if_neg (by omega), if_pos h2]

/-- Witness for C10 on a 12-byte mapping whose tail holds 6 stray bytes. -/
theorem C10_scan_bounds_witness :
    (6 : Nat) < 12 ∧ 6 + hdrSize > 12 ∧ (0 : Nat) < 12 ∧
    (scanLoop 12 freshData 12 6 ≠ .oor ∧
      ((6 : Nat) < 12 → 6 + hdrSize > 12 → (0 : Nat) < 12 →
        scanLoop 12 freshData 12 6 = .err .invalidOffset)) :=
  ⟨by decide, by decide, by decide, C10_scan_bounds 12 freshData 12 6⟩

/-- Counterexample for C10 over both drafts: on the same 12-byte content the
mmap-go draft's scan performs the out-of-range slice access (a Go panic)
where the mmap.File draft's scan returns the `ErrInvalidOffset` error. -/
theorem C10_counterexample :
    segOpen005 12 freshData = .oor ∧
    scanLoop 12 freshData 12 SegmentHeaderSize = .err .invalidOffset := by
  refine ⟨by decide, by decide⟩
